import Mathlib

/-!
# Shallow embedding of the balancer chunk-defragmentation policy engine

This file embeds, in Lean 4, the core of
`src/mongo/db/s/balancer/balancer_defragmentation_policy_impl.cpp`:

* the three per-collection defragmentation phase state machines
  (`MergeChunksPhase`, `MoveAndMergeChunksPhase`, `SplitChunksPhase`), and
* the cross-collection policy engine (`BalancerDefragmentationPolicyImpl`).

Modelling conventions:

* BSON objects used as shard-key bounds are modelled by `BObj`: a `val : Nat`
  giving the key's position in the `woCompare` total order, and an
  `objsize : Nat` giving the value of `BSONObj::objsize()` (only the split
  phase reads it).
* `ShardId`, collection UUIDs and chunk versions are modelled as `Nat`.
* `std::map` and the chunk list are modelled as association lists
  `List (Nat × α)`; `std::list` iterators of the move-and-merge phase become
  stable numeric chunk ids (`ChunkId`) used as keys into the chunk list.
* Catalog reads (`getShardVersion`, `getCollection`, phase construction from
  the catalog in `_transitionPhases`) are external collaborators; they are
  modelled as an explicit environment passed to the functions that perform
  them.  Exception paths of those reads are not exercised by the claims
  below, so the environment is total.
* `Status` values are collapsed to `MStatus`: `ok`, or an error that is or
  is not retriable in the sense of `isRetriableForDefragmentation`
  (a retriable category error, `StaleShardVersion` or `StaleConfig`).
* `uint64_t` arithmetic that can wrap (shard data-size accounting) is done
  modulo `2 ^ 64`; `long long` quantities (`estimatedSizeBytes`,
  `_smallChunkSizeThresholdBytes`) are `Int`.
-/

namespace Defrag

/-- A BSON object used as a shard-key bound or split key: `val` is its rank in
the `woCompare` order, `objsize` the result of `BSONObj::objsize()`. -/
structure BObj where
  val : Nat
  objsize : Nat
deriving DecidableEq, Repr

instance : Inhabited BObj := ⟨⟨0, 0⟩⟩

/-- `ChunkRange` — a half-open interval `[getMin, getMax)` over the shard key. -/
structure ChunkRange where
  getMin : BObj
  getMax : BObj
deriving DecidableEq, Repr

instance : Inhabited ChunkRange := ⟨⟨default, default⟩⟩

/-- `ChunkRange::containsKey`: `getMin ≤ k < getMax` in the `woCompare` order. -/
def ChunkRange.containsKey (r : ChunkRange) (k : BObj) : Bool :=
  decide (r.getMin.val ≤ k.val) && decide (k.val < r.getMax.val)

abbrev ShardId := Nat

/-- Outcome of an action, as classified by `isRetriableForDefragmentation`:
either OK, or an error that is/is not retriable (a retriable-category error,
`StaleShardVersion` or `StaleConfig` count as retriable). -/
inductive MStatus where
  | ok
  | err (retriable : Bool)
deriving DecidableEq, Repr

/-- `isRetriableForDefragmentation` on the collapsed status type. -/
def isRetriableForDefragmentation : MStatus → Bool
  | .ok => false
  | .err r => r

/-- `handleActionResult`: dispatch on the status of a completed action. -/
def handleActionResult {α : Type} (status : MStatus)
    (onSuccess onRetriableError onNonRetriableError : α) : α :=
  match status with
  | .ok => onSuccess
  | .err r => if r then onRetriableError else onNonRetriableError

/-- `DefragmentationPhaseEnum`. -/
inductive DefragmentationPhaseEnum where
  | kMergeChunks
  | kMoveAndMergeChunks
  | kSplitChunks
  | kFinished
deriving DecidableEq, Repr

/-! ## Association-list helpers

`std::map<Nat, α>` (and the chunk list with its stable iterators) are
modelled as `List (Nat × α)`.  `alookup` is `find`, `updateEntry` mutates
the mapped value of the first entry with the given key, `eraseEntry` is
`erase(key)`, and `insertSortedEntry` inserts keeping keys sorted (the
`std::map` iteration order). -/

/-- Look up the first entry with the given key. -/
def alookup {α : Type} (k : Nat) : List (Nat × α) → Option α
  | [] => none
  | (k2, v) :: rest => if k2 = k then some v else alookup k rest

/-- Replace the value of the first entry with the given key (no-op if absent). -/
def updateEntry {α : Type} (k : Nat) (f : α → α) : List (Nat × α) → List (Nat × α)
  | [] => []
  | (k2, v) :: rest =>
      if k2 = k then (k2, f v) :: rest else (k2, v) :: updateEntry k f rest

/-- Remove the first entry with the given key. -/
def eraseEntry {α : Type} (k : Nat) : List (Nat × α) → List (Nat × α)
  | [] => []
  | (k2, v) :: rest => if k2 = k then rest else (k2, v) :: eraseEntry k rest

/-- Insert an entry keeping keys in ascending order (`std::map` placement). -/
def insertSortedEntry {α : Type} (k : Nat) (v : α) : List (Nat × α) → List (Nat × α)
  | [] => [(k, v)]
  | (k2, v2) :: rest =>
      if k ≤ k2 then (k, v) :: (k2, v2) :: rest
      else (k2, v2) :: insertSortedEntry k v rest

/-- `map[k]` followed by a mutation of the referenced value: if the key is
present update it in place, otherwise default-insert (at the `std::map`
sorted position) and then mutate. -/
def mapBracketUpdate {α : Type} (k : Nat) (dflt : α) (f : α → α)
    (m : List (Nat × α)) : List (Nat × α) :=
  match alookup k m with
  | some _ => updateEntry k f m
  | none => insertSortedEntry k (f dflt) m

/-- Insertion into a set of shards (`stdx::unordered_set<ShardId>::insert`). -/
def insertShard (s : ShardId) (l : List ShardId) : List ShardId :=
  if s ∈ l then l else s :: l

/-- Insertion sort with a boolean "goes-before" comparator; models
`std::list::sort`. -/
def insertLe {α : Type} (le : α → α → Bool) (a : α) : List α → List α
  | [] => [a]
  | b :: t => if le a b then a :: b :: t else b :: insertLe le a t

/-- Sort with a boolean comparator (used for `std::list::sort`). -/
def sortByBool {α : Type} (le : α → α → Bool) : List α → List α
  | [] => []
  | a :: t => insertLe le a (sortByBool le t)

theorem insertLe_perm {α : Type} (le : α → α → Bool) (a : α) (l : List α) :
    (insertLe le a l).Perm (a :: l) := by
  induction l with
  | nil => simp [insertLe]
  | cons b t ih =>
      by_cases h : le a b = true
      · simp [insertLe, h]
      · simp only [insertLe, h, if_neg]
        exact (List.Perm.cons b ih).trans (List.Perm.swap a b t)

theorem sortByBool_perm {α : Type} (le : α → α → Bool) (l : List α) :
    (sortByBool le l).Perm l := by
  induction l with
  | nil => simp [sortByBool]
  | cons a t ih =>
      exact (insertLe_perm le a _).trans (List.Perm.cons a ih)

/-! ## Actions and responses -/

/-- `MergeInfo` — request to merge the chunks covering `chunkRange` on
`shardId` into one. -/
structure MergeInfo where
  shardId : ShardId
  uuid : Nat
  shardVersion : Nat
  chunkRange : ChunkRange
deriving DecidableEq, Repr

/-- `DataSizeInfo` — request to measure the data size of `chunkRange` on
`shardId`. -/
structure DataSizeInfo where
  shardId : ShardId
  uuid : Nat
  chunkRange : ChunkRange
  version : Nat
deriving DecidableEq, Repr

/-- `AutoSplitVectorInfo` — request for split points of `[minKey, maxKey)`. -/
structure AutoSplitVectorInfo where
  shardId : ShardId
  uuid : Nat
  version : Nat
  minKey : BObj
  maxKey : BObj
  maxChunkSizeBytes : Nat
deriving DecidableEq, Repr

/-- `SplitInfoWithKeyPattern` — request to split `[minKey, maxKey)` at
`splitKeys`. -/
structure SplitInfoWithKeyPattern where
  shardId : ShardId
  uuid : Nat
  version : Nat
  minKey : BObj
  maxKey : BObj
  splitKeys : List BObj
deriving DecidableEq, Repr

/-- `MigrateInfo` — request to migrate the chunk `[minKey, maxKey)` owned by
`sourceShard` to `destShard`. -/
structure MigrateInfo where
  destShard : ShardId
  uuid : Nat
  sourceShard : ShardId
  minKey : BObj
  maxKey : BObj
  version : Nat
deriving DecidableEq, Repr

/-- `DefragmentationAction` — the variant served to the executor. -/
inductive DefragmentationAction where
  | mergeA (i : MergeInfo)
  | dataSizeA (i : DataSizeInfo)
  | autoSplitA (i : AutoSplitVectorInfo)
  | splitA (i : SplitInfoWithKeyPattern)
  | migrateA (i : MigrateInfo)
  | endOfActionStream
deriving DecidableEq, Repr

/-- `DefragmentationActionResponse` — the variant reported back. -/
inductive DefragmentationActionResponse where
  | statusR (s : MStatus)
  | dataSizeR (s : MStatus) (sizeBytes : Nat)
  | splitPointsR (s : MStatus) (points : List BObj)
deriving DecidableEq, Repr

/-! ## MergeChunksPhase (CoalesceAdjacent)

State and operations of `MergeChunksPhase` (balancer_defragmentation_policy_impl.cpp,
lines 122-316). -/

/-- Per-shard pending work of `MergeChunksPhase`. -/
structure MCPendingActions where
  rangesToMerge : List ChunkRange
  rangesWithoutDataSize : List ChunkRange
deriving DecidableEq, Repr

instance : Inhabited MCPendingActions := ⟨⟨[], []⟩⟩

/-- Mutable state of `MergeChunksPhase`. -/
structure MergeChunksPhaseState where
  uuid : Nat
  pendingActionsByShards : List (ShardId × MCPendingActions)
  outstandingActions : Nat
  aborted : Bool
  nextPhase : DefragmentationPhaseEnum
deriving DecidableEq, Repr

/-- `MergeChunksPhase::_abort`. -/
def MergeChunksPhaseState.abortPhase (st : MergeChunksPhaseState)
    (nextPhase : DefragmentationPhaseEnum) : MergeChunksPhaseState :=
  { st with aborted := true, nextPhase := nextPhase, pendingActionsByShards := [] }

/-- `MergeChunksPhase::getType` is `kMergeChunks`. -/
def MergeChunksPhaseState.getType (_ : MergeChunksPhaseState) :
    DefragmentationPhaseEnum := .kMergeChunks

/-- `MergeChunksPhase::isComplete`. -/
def MergeChunksPhaseState.isComplete (st : MergeChunksPhaseState) : Bool :=
  st.pendingActionsByShards.isEmpty && decide (st.outstandingActions = 0)

/-- `MergeChunksPhase::popNextStreamableAction`.  `env` supplies the result of
`getShardVersion` (a catalog read).  The first shard entry of the (sorted)
pending map is served; a measure is preferred over a merge when there are
strictly more measure ranges; ranges pop from the back of their vector. -/
def MergeChunksPhaseState.popNextStreamableAction (env : ShardId → Nat)
    (st : MergeChunksPhaseState) :
    Option DefragmentationAction × MergeChunksPhaseState :=
  match st.pendingActionsByShards with
  | [] => (none, st)
  | (shardId, pendingActions) :: rest =>
      let shardVersion := env shardId
      if pendingActions.rangesWithoutDataSize.length >
          pendingActions.rangesToMerge.length then
        let rangeToMeasure := (pendingActions.rangesWithoutDataSize.getLast?).getD default
        let pending2 : MCPendingActions :=
          { pendingActions with
            rangesWithoutDataSize := pendingActions.rangesWithoutDataSize.dropLast }
        let nextAction : DefragmentationAction :=
          .dataSizeA ⟨shardId, st.uuid, rangeToMeasure, shardVersion⟩
        let byShards :=
          if pending2.rangesToMerge.isEmpty && pending2.rangesWithoutDataSize.isEmpty
          then rest else (shardId, pending2) :: rest
        (some nextAction,
          { st with pendingActionsByShards := byShards,
                    outstandingActions := st.outstandingActions + 1 })
      else if pendingActions.rangesToMerge.isEmpty then
        (none, st)
      else
        let rangeToMerge := (pendingActions.rangesToMerge.getLast?).getD default
        let pending2 : MCPendingActions :=
          { pendingActions with rangesToMerge := pendingActions.rangesToMerge.dropLast }
        let nextAction : DefragmentationAction :=
          .mergeA ⟨shardId, st.uuid, shardVersion, rangeToMerge⟩
        let byShards :=
          if pending2.rangesToMerge.isEmpty && pending2.rangesWithoutDataSize.isEmpty
          then rest else (shardId, pending2) :: rest
        (some nextAction,
          { st with pendingActionsByShards := byShards,
                    outstandingActions := st.outstandingActions + 1 })

/-- `MergeChunksPhase::applyActionResult`.  Returns `none` on the
`uasserted`/`stdx::get` failure paths (wrong action/response variant).  The
`ScopeGuard` decrement of `_outstandingActions` applies on every path. -/
def MergeChunksPhaseState.applyActionResult (st : MergeChunksPhaseState)
    (action : DefragmentationAction) (response : DefragmentationActionResponse) :
    Option MergeChunksPhaseState :=
  let decr : MergeChunksPhaseState → MergeChunksPhaseState := fun s =>
    { s with outstandingActions := s.outstandingActions - 1 }
  match action, response with
  | .mergeA mergeAction, .statusR mergeResponse =>
      if st.aborted then some (decr st) else
      -- `_pendingActionsByShards[mergeAction.shardId]` default-inserts.
      let ensured :=
        mapBracketUpdate mergeAction.shardId default id st.pendingActionsByShards
      let st1 := { st with pendingActionsByShards := ensured }
      let pushMeasure := fun (p : MCPendingActions) =>
        { p with
          rangesWithoutDataSize := p.rangesWithoutDataSize ++ [mergeAction.chunkRange] }
      let pushMerge := fun (p : MCPendingActions) =>
        { p with rangesToMerge := p.rangesToMerge ++ [mergeAction.chunkRange] }
      some (decr (handleActionResult mergeResponse
        { st1 with
          pendingActionsByShards := updateEntry mergeAction.shardId pushMeasure ensured }
        { st1 with
          pendingActionsByShards := updateEntry mergeAction.shardId pushMerge ensured }
        (st1.abortPhase st1.getType)))
  | .dataSizeA dataSizeAction, .dataSizeR status _sizeBytes =>
      if st.aborted then some (decr st) else
      -- on success the measured size is persisted to the catalog
      -- (`setChunkEstimatedSize`), an external write: no phase-state change.
      let pushMeasure := fun (p : MCPendingActions) =>
        { p with
          rangesWithoutDataSize := p.rangesWithoutDataSize ++ [dataSizeAction.chunkRange] }
      let requeued :=
        mapBracketUpdate dataSizeAction.shardId default pushMeasure
          st.pendingActionsByShards
      some (decr (handleActionResult status
        st
        { st with pendingActionsByShards := requeued }
        (st.abortPhase st.getType)))
  | _, _ => none

/-! ## MoveAndMergeChunksPhase

State and operations of `MoveAndMergeChunksPhase`
(balancer_defragmentation_policy_impl.cpp, lines 318-840).  The
`std::list<ChunkRangeInfo>` with its stable iterators is modelled as an
association list keyed by stable `ChunkId`s, in routing-table order; an
"iterator" is a `ChunkId`. -/

abbrev ChunkId := Nat

/-- `MoveAndMergeChunksPhase::ChunkRangeInfo`. -/
structure ChunkRangeInfo where
  range : ChunkRange
  shard : ShardId
  estimatedSizeBytes : Int
  busyInOperation : Bool
deriving DecidableEq, Repr

instance : Inhabited ChunkRangeInfo := ⟨⟨default, 0, 0, false⟩⟩

/-- `MoveAndMergeChunksPhase::ShardInfo`. -/
structure ShardInfo where
  currentSizeBytes : Nat
  maxSizeBytes : Nat
  draining : Bool
deriving DecidableEq, Repr

instance : Inhabited ShardInfo := ⟨⟨0, 0, false⟩⟩

/-- `ShardInfo::canReceiveNewChunks`. -/
def ShardInfo.canReceiveNewChunks (s : ShardInfo) : Bool :=
  if s.draining then false
  else decide (s.maxSizeBytes = 0) || decide (s.currentSizeBytes < s.maxSizeBytes)

/-- `compareChunkRangeInfoIterators` (compares pointed-to estimated sizes). -/
def compareChunkRangeInfoSizes (lhs rhs : ChunkRangeInfo) : Bool :=
  decide (lhs.estimatedSizeBytes < rhs.estimatedSizeBytes)

/-- `MoveAndMergeRequest`: the pair of iterators (chunk ids) plus the
`_isChunkToMergeLeftSibling` flag computed at construction. -/
structure MoveAndMergeRequest where
  chunkToMove : ChunkId
  chunkToMergeWith : ChunkId
  isChunkToMergeLeftSibling : Bool
deriving DecidableEq, Repr

/-- `kSmallChunkSizeThresholdPctg = 25`. -/
def kSmallChunkSizeThresholdPctg : Nat := 25

/-- The small-chunk threshold computed in `MoveAndMergeChunksPhase::build`:
`(maxChunkSizeBytes / 100) * kSmallChunkSizeThresholdPctg` over `uint64_t`. -/
def smallChunkSizeThreshold (maxChunkSizeBytes : Nat) : Nat :=
  maxChunkSizeBytes / 100 * kSmallChunkSizeThresholdPctg

/-- `2 ^ 64`, the modulus of `uint64_t` arithmetic. -/
def u64Mod : Nat := 18446744073709551616

/-- Mutable state of `MoveAndMergeChunksPhase`. -/
structure MoveAndMergeChunksPhaseState where
  uuid : Nat
  /-- `_collectionChunks`, in routing-table order, keyed by stable chunk id. -/
  collectionChunks : List (ChunkId × ChunkRangeInfo)
  /-- `_smallChunksByShard`: shard → chunk ids, ascending estimated size. -/
  smallChunksByShard : List (ShardId × List ChunkId)
  /-- `_shardInfos`. -/
  shardInfos : List (ShardId × ShardInfo)
  /-- `_shardProcessingOrder`: shard ids by decreasing current size. -/
  shardProcessingOrder : List ShardId
  outstandingMigrations : List MoveAndMergeRequest
  actionableMerges : List MoveAndMergeRequest
  outstandingMerges : List MoveAndMergeRequest
  /-- `_zoneInfo.getZoneForChunk`, as a function on ranges. -/
  zoneOf : ChunkRange → Nat
  /-- `_smallChunkSizeThresholdBytes` (`int64_t`). -/
  smallChunkSizeThresholdBytes : Int
  aborted : Bool
  nextPhase : DefragmentationPhaseEnum

namespace MoveAndMergeChunksPhaseState

/-- Dereference an iterator (chunk id) into `_collectionChunks`. -/
def chunkAt (st : MoveAndMergeChunksPhaseState) (cid : ChunkId) : ChunkRangeInfo :=
  (alookup cid st.collectionChunks).getD default

/-- `_shardInfos.at(shard)` (states used by the theorems have the entry). -/
def shardInfoAt (st : MoveAndMergeChunksPhaseState) (s : ShardId) : ShardInfo :=
  (alookup s st.shardInfos).getD default

/-- Mutate the chunk record a chunk id points to. -/
def updateChunk (st : MoveAndMergeChunksPhaseState) (cid : ChunkId)
    (f : ChunkRangeInfo → ChunkRangeInfo) : MoveAndMergeChunksPhaseState :=
  { st with collectionChunks := updateEntry cid f st.collectionChunks }

/-- `MoveAndMergeChunksPhase::getType` is `kMoveAndMergeChunks`. -/
def getType (_ : MoveAndMergeChunksPhaseState) : DefragmentationPhaseEnum :=
  .kMoveAndMergeChunks

/-- `MoveAndMergeChunksPhase::isComplete`. -/
def isComplete (st : MoveAndMergeChunksPhaseState) : Bool :=
  st.smallChunksByShard.isEmpty && st.outstandingMigrations.isEmpty &&
    st.actionableMerges.isEmpty && st.outstandingMerges.isEmpty

/-- `MoveAndMergeChunksPhase::_abort`. -/
def abortPhase (st : MoveAndMergeChunksPhaseState)
    (nextPhase : DefragmentationPhaseEnum) : MoveAndMergeChunksPhaseState :=
  { st with
    aborted := true
    nextPhase := nextPhase
    actionableMerges := []
    smallChunksByShard := []
    shardProcessingOrder := [] }

/-- `MoveAndMergeRequest::MoveAndMergeRequest`: the left-sibling flag is
`chunkToMergeWith->range.getMax().woCompare(chunkToMove->range.getMin()) == 0`. -/
def makeRequest (st : MoveAndMergeChunksPhaseState)
    (chunkToMove chunkToMergeWith : ChunkId) : MoveAndMergeRequest :=
  ⟨chunkToMove, chunkToMergeWith,
    decide ((st.chunkAt chunkToMergeWith).range.getMax.val =
      (st.chunkAt chunkToMove).range.getMin.val)⟩

/-- `MoveAndMergeRequest::asMergedRange` (reads the current chunk records). -/
def asMergedRange (st : MoveAndMergeChunksPhaseState)
    (r : MoveAndMergeRequest) : ChunkRange :=
  let cw := st.chunkAt r.chunkToMergeWith
  let cm := st.chunkAt r.chunkToMove
  if r.isChunkToMergeLeftSibling then ⟨cw.range.getMin, cm.range.getMax⟩
  else ⟨cm.range.getMin, cw.range.getMax⟩

/-- `MoveAndMergeRequest::asMigrateInfo`. -/
def asMigrateInfo (st : MoveAndMergeChunksPhaseState) (r : MoveAndMergeRequest)
    (version : Nat) : MigrateInfo :=
  { destShard := (st.chunkAt r.chunkToMergeWith).shard
    uuid := st.uuid
    sourceShard := (st.chunkAt r.chunkToMove).shard
    minKey := (st.chunkAt r.chunkToMove).range.getMin
    maxKey := (st.chunkAt r.chunkToMove).range.getMax
    version := version }

/-- `MoveAndMergeRequest::asMergeInfo`. -/
def asMergeInfo (st : MoveAndMergeChunksPhaseState) (r : MoveAndMergeRequest)
    (version : Nat) : MergeInfo :=
  ⟨(st.chunkAt r.chunkToMergeWith).shard, st.uuid, version, st.asMergedRange r⟩

/-- The chunk id immediately after `cid` in the routing table
(`std::next(chunkIt)`), if any. -/
def rightSiblingOf (cid : ChunkId) : List (ChunkId × ChunkRangeInfo) → Option ChunkId
  | [] => none
  | (k, _) :: rest =>
      if k = cid then (rest.head?).map Prod.fst else rightSiblingOf cid rest

/-- Helper for `leftSiblingOf`: scan remembering the previous chunk id. -/
def leftSiblingAux (cid : ChunkId) (prev : ChunkId) :
    List (ChunkId × ChunkRangeInfo) → Option ChunkId
  | [] => none
  | (k, _) :: rest => if k = cid then some prev else leftSiblingAux cid k rest

/-- The chunk id immediately before `cid` (`std::prev(chunkIt)`), if any. -/
def leftSiblingOf (cid : ChunkId) : List (ChunkId × ChunkRangeInfo) → Option ChunkId
  | [] => none
  | (k, _) :: rest => if k = cid then none else leftSiblingAux cid k rest

/-- The `canBeMoveAndMerged` lambda of `_getChunkSiblings`: same zone, and
either the same shard or a destination shard that can receive chunks. -/
def canBeMoveAndMerged (st : MoveAndMergeChunksPhaseState)
    (chunkIt siblingIt : ChunkId) : Bool :=
  let c := st.chunkAt chunkIt
  let s := st.chunkAt siblingIt
  let onSameZone := decide (st.zoneOf c.range = st.zoneOf s.range)
  let destinationAvailable :=
    decide (c.shard = s.shard) || (st.shardInfoAt s.shard).canReceiveNewChunks
  onSameZone && destinationAvailable

/-- `MoveAndMergeChunksPhase::_getChunkSiblings`: right sibling first, then
left sibling, each kept only if `canBeMoveAndMerged`. -/
def getChunkSiblings (st : MoveAndMergeChunksPhaseState) (chunkIt : ChunkId) :
    List ChunkId :=
  let rightPart :=
    match rightSiblingOf chunkIt st.collectionChunks with
    | some rightSibling =>
        if st.canBeMoveAndMerged chunkIt rightSibling then [rightSibling] else []
    | none => []
  let leftPart :=
    match leftSiblingOf chunkIt st.collectionChunks with
    | some leftSibling =>
        if st.canBeMoveAndMerged chunkIt leftSibling then [leftSibling] else []
    | none => []
  rightPart ++ leftPart

/-- The candidate scan of `_findNextSmallChunkInShard` over one shard's small
chunk list.  Returns the candidate and its filtered siblings (if found)
together with the list as mutated by the scan (candidates with no siblings at
all are erased permanently). -/
def findCandidateAux (st : MoveAndMergeChunksPhaseState) (usedShards : List ShardId) :
    List ChunkId → Option (ChunkId × List ChunkId) × List ChunkId
  | [] => (none, [])
  | candidate :: rest =>
      if (st.chunkAt candidate).busyInOperation then
        let (r, rest2) := findCandidateAux st usedShards rest
        (r, candidate :: rest2)
      else
        let candidateSiblings := st.getChunkSiblings candidate
        if candidateSiblings.isEmpty then
          -- the current chunk cannot be processed by the algorithm - remove it
          findCandidateAux st usedShards rest
        else
          let smallChunkSiblings := candidateSiblings.filter fun sibling =>
            !(st.chunkAt sibling).busyInOperation &&
              !(usedShards.contains (st.chunkAt sibling).shard)
          if smallChunkSiblings.isEmpty then
            let (r, rest2) := findCandidateAux st usedShards rest
            (r, candidate :: rest2)
          else
            (some (candidate, smallChunkSiblings), candidate :: rest)

/-- `MoveAndMergeChunksPhase::_findNextSmallChunkInShard`. -/
def findNextSmallChunkInShard (st : MoveAndMergeChunksPhaseState) (shard : ShardId)
    (usedShards : List ShardId) :
    Option (ChunkId × List ChunkId) × MoveAndMergeChunksPhaseState :=
  match alookup shard st.smallChunksByShard with
  | none => (none, st)
  | some smallChunksInShard =>
      match findCandidateAux st usedShards smallChunksInShard with
      | (some found, newList) =>
          (some found,
            { st with
              smallChunksByShard :=
                updateEntry shard (fun _ => newList) st.smallChunksByShard })
      | (none, newList) =>
          if newList.isEmpty then
            (none, { st with
              smallChunksByShard := eraseEntry shard st.smallChunksByShard })
          else
            (none, { st with
              smallChunksByShard :=
                updateEntry shard (fun _ => newList) st.smallChunksByShard })

/-- `MoveAndMergeChunksPhase::_rankMergeableSibling`. -/
def rankMergeableSibling (st : MoveAndMergeChunksPhaseState)
    (chunkTobeMovedAndMerged mergeableSibling : ChunkRangeInfo) : Nat :=
  let kNoMoveRequired : Nat := 16
  let kConvenientMove : Nat := 8
  let kMergeSolvesTwoPendingChunks : Nat := 4
  let kMergeSolvesOnePendingChunk : Nat := 2
  let ranking : Nat :=
    if chunkTobeMovedAndMerged.shard = mergeableSibling.shard then
      kNoMoveRequired
    else if chunkTobeMovedAndMerged.estimatedSizeBytes <
        mergeableSibling.estimatedSizeBytes then
      kConvenientMove
    else 0
  let estimatedMergedSize :=
    chunkTobeMovedAndMerged.estimatedSizeBytes + mergeableSibling.estimatedSizeBytes
  if estimatedMergedSize > st.smallChunkSizeThresholdBytes then
    ranking +
      (if mergeableSibling.estimatedSizeBytes < st.smallChunkSizeThresholdBytes
        then kMergeSolvesTwoPendingChunks else kMergeSolvesOnePendingChunk)
  else ranking

/-- The target-sibling choice of `popNextMigration`: start from the front of
the candidate list; if the back is a distinct iterator, the challenger wins on
a strictly higher rank, or on an equal rank with a smaller current shard
size. -/
def chooseTargetSibling (st : MoveAndMergeChunksPhaseState)
    (nextSmallChunk : ChunkId) (candidateSiblings : List ChunkId) : ChunkId :=
  let targetSibling := candidateSiblings.headD 0
  match candidateSiblings.getLast? with
  | none => targetSibling
  | some challenger =>
      if targetSibling = challenger then targetSibling
      else
        let targetScore :=
          st.rankMergeableSibling (st.chunkAt nextSmallChunk) (st.chunkAt targetSibling)
        let challengerScore :=
          st.rankMergeableSibling (st.chunkAt nextSmallChunk) (st.chunkAt challenger)
        if challengerScore > targetScore ∨
            (challengerScore = targetScore ∧
              (st.shardInfoAt (st.chunkAt challenger).shard).currentSizeBytes <
                (st.shardInfoAt (st.chunkAt targetSibling).shard).currentSizeBytes) then
          challenger
        else targetSibling

/-- The body of `MoveAndMergeChunksPhase::popNextMigration`, iterating the
remaining `_shardProcessingOrder`.  `env` supplies `getShardVersion`. -/
def popNextMigrationAux (env : ShardId → Nat) (st : MoveAndMergeChunksPhaseState)
    (usedShards : List ShardId) :
    List ShardId →
      Option MigrateInfo × MoveAndMergeChunksPhaseState × List ShardId
  | [] => (none, st, usedShards)
  | shardId :: restShards =>
      if usedShards.contains shardId then
        -- the shard is already busy in a migration
        popNextMigrationAux env st usedShards restShards
      else
        match st.findNextSmallChunkInShard shardId usedShards with
        | (none, st1) => popNextMigrationAux env st1 usedShards restShards
        | (some (nextSmallChunk, candidateSiblings), st1) =>
            let targetSibling := st1.chooseTargetSibling nextSmallChunk candidateSiblings
            let st2 :=
              (st1.updateChunk nextSmallChunk fun c => { c with busyInOperation := true })
            let st3 :=
              st2.updateChunk targetSibling fun c => { c with busyInOperation := true }
            let used1 := insertShard (st3.chunkAt nextSmallChunk).shard usedShards
            let used2 := insertShard (st3.chunkAt targetSibling).shard used1
            let smallChunkVersion := env (st3.chunkAt nextSmallChunk).shard
            let request := st3.makeRequest nextSmallChunk targetSibling
            let st4 := { st3 with
              outstandingMigrations := st3.outstandingMigrations ++ [request] }
            (some (st4.asMigrateInfo request smallChunkVersion), st4, used2)

/-- `MoveAndMergeChunksPhase::popNextMigration`. -/
def popNextMigration (env : ShardId → Nat) (st : MoveAndMergeChunksPhaseState)
    (usedShards : List ShardId) :
    Option MigrateInfo × MoveAndMergeChunksPhaseState × List ShardId :=
  popNextMigrationAux env st usedShards st.shardProcessingOrder

/-- `MoveAndMergeChunksPhase::popNextStreamableAction`: dequeue the front of
`_actionableMerges` into `_outstandingMerges` and emit the merge action. -/
def popNextStreamableAction (env : ShardId → Nat)
    (st : MoveAndMergeChunksPhaseState) :
    Option DefragmentationAction × MoveAndMergeChunksPhaseState :=
  match st.actionableMerges with
  | [] => (none, st)
  | nextRequest :: restMerges =>
      let st1 := { st with
        actionableMerges := restMerges
        outstandingMerges := st.outstandingMerges ++ [nextRequest] }
      let version := env (st1.chunkAt nextRequest.chunkToMergeWith).shard
      (some (.mergeA (st1.asMergeInfo nextRequest version)), st1)

/-- The `find_if` over `_outstandingMigrations` matching a migration response:
`migrationAction.minKey.woCompare(request.getMigrationMinKey()) == 0`. -/
def findOutstandingMigration (st : MoveAndMergeChunksPhaseState) (minKey : BObj) :
    Option MoveAndMergeRequest :=
  st.outstandingMigrations.find? fun request =>
    decide (minKey.val = (st.chunkAt request.chunkToMove).range.getMin.val)

/-- The `find_if` over `_outstandingMerges` matching a merge response:
`mergeAction.chunkRange.containsKey(request.getMigrationMinKey())`. -/
def findOutstandingMerge (st : MoveAndMergeChunksPhaseState) (chunkRange : ChunkRange) :
    Option MoveAndMergeRequest :=
  st.outstandingMerges.find? fun request =>
    chunkRange.containsKey (st.chunkAt request.chunkToMove).range.getMin

/-- `_removeIteratorFromSmallChunks`. -/
def removeIteratorFromSmallChunks (st : MoveAndMergeChunksPhaseState)
    (chunkIt : ChunkId) (parentShard : ShardId) : MoveAndMergeChunksPhaseState :=
  match alookup parentShard st.smallChunksByShard with
  | none => st
  | some smallChunksInShard =>
      if chunkIt ∈ smallChunksInShard then
        let newList := smallChunksInShard.erase chunkIt
        if newList.isEmpty then
          { st with smallChunksByShard := eraseEntry parentShard st.smallChunksByShard }
        else
          { st with smallChunksByShard :=
              updateEntry parentShard (fun _ => newList) st.smallChunksByShard }
      else st

/-- The `onSuccess` lambda of the migration-response branch of
`MoveAndMergeChunksPhase::applyActionResult`: adjust the shard data sizes,
re-sort `_shardProcessingOrder`, move the request to `_actionableMerges`. -/
def migrationOnSuccess (st1 : MoveAndMergeChunksPhaseState)
    (moveRequest : MoveAndMergeRequest) : MoveAndMergeChunksPhaseState :=
  -- `getMovedDataSizeBytes` converts the `long long` size to `uint64_t`.
  let transferredAmount :=
    ((st1.chunkAt moveRequest.chunkToMove).estimatedSizeBytes.emod u64Mod).toNat
  let sourceShard := (st1.chunkAt moveRequest.chunkToMove).shard
  let destShard := (st1.chunkAt moveRequest.chunkToMergeWith).shard
  let infos1 := updateEntry sourceShard
    (fun i : ShardInfo =>
      { i with currentSizeBytes :=
          (i.currentSizeBytes + u64Mod - transferredAmount % u64Mod) % u64Mod })
    st1.shardInfos
  let infos2 := updateEntry destShard
    (fun i : ShardInfo =>
      { i with currentSizeBytes := (i.currentSizeBytes + transferredAmount) % u64Mod })
    infos1
  let st2 := { st1 with shardInfos := infos2 }
  let order2 := sortByBool
    (fun lhs rhs : ShardId =>
      decide ((st2.shardInfoAt lhs).currentSizeBytes ≥
        (st2.shardInfoAt rhs).currentSizeBytes))
    st2.shardProcessingOrder
  { st2 with
    shardProcessingOrder := order2
    actionableMerges := st2.actionableMerges ++ [moveRequest] }

/-- The migration-response branch of
`MoveAndMergeChunksPhase::applyActionResult`.  Returns `none` when the
`invariant(match != end)` would fire. -/
def applyMigrationResult (st : MoveAndMergeChunksPhaseState)
    (migrationAction : MigrateInfo) (migrationResponse : MStatus) :
    Option MoveAndMergeChunksPhaseState :=
  match st.findOutstandingMigration migrationAction.minKey with
  | none => none
  | some moveRequest =>
      let st1 := { st with
        outstandingMigrations := st.outstandingMigrations.eraseP fun request =>
          decide (migrationAction.minKey.val =
            (st.chunkAt request.chunkToMove).range.getMin.val) }
      if st1.aborted then some st1 else
      let onRetriableError :=
        (st1.updateChunk moveRequest.chunkToMove fun c =>
            { c with busyInOperation := false }).updateChunk
          moveRequest.chunkToMergeWith fun c => { c with busyInOperation := false }
      some (handleActionResult migrationResponse
        (migrationOnSuccess st1 moveRequest) onRetriableError
        (st1.abortPhase .kMergeChunks))

/-- The mutation applied to the surviving (`chunkToMergeWith`) chunk on a
successful merge: extended range, summed size, cleared busy flag. -/
def mergeChunkUpdate (st1 : MoveAndMergeChunksPhaseState)
    (mergeRequest : MoveAndMergeRequest) : ChunkRangeInfo → ChunkRangeInfo :=
  fun c =>
    { c with
      range := st1.asMergedRange mergeRequest
      estimatedSizeBytes := c.estimatedSizeBytes +
        (st1.chunkAt mergeRequest.chunkToMove).estimatedSizeBytes
      busyInOperation := false }

/-- The `onSuccess` lambda of the merge-response branch of
`MoveAndMergeChunksPhase::applyActionResult`: extend the surviving chunk,
delete the moved chunk from the collection and from the small-chunk lookup
structures. -/
def mergeOnSuccess (st1 : MoveAndMergeChunksPhaseState)
    (mergeRequest : MoveAndMergeRequest) : MoveAndMergeChunksPhaseState :=
  -- the sequence is complete; update the state of the merged chunk...
  let st2 := st1.updateChunk mergeRequest.chunkToMergeWith
    (mergeChunkUpdate st1 mergeRequest)
  -- the collection...
  let deletedChunkShard := (st2.chunkAt mergeRequest.chunkToMove).shard
  let st3 := { st2 with
    collectionChunks := eraseEntry mergeRequest.chunkToMove st2.collectionChunks }
  -- ... and the lookup data structures
  let st4 := st3.removeIteratorFromSmallChunks mergeRequest.chunkToMove
    deletedChunkShard
  let mergedChunk := st4.chunkAt mergeRequest.chunkToMergeWith
  if mergedChunk.estimatedSizeBytes > st4.smallChunkSizeThresholdBytes then
    st4.removeIteratorFromSmallChunks mergeRequest.chunkToMergeWith
      mergedChunk.shard
  else
    -- keep the list of small chunk iterators in the recipient sorted
    { st4 with
      smallChunksByShard :=
        updateEntry mergedChunk.shard
          (fun smallChunksInRecipient =>
            sortByBool
              (fun lhs rhs : ChunkId =>
                compareChunkRangeInfoSizes (st4.chunkAt lhs) (st4.chunkAt rhs))
              smallChunksInRecipient)
          st4.smallChunksByShard }

/-- The merge-response branch of `MoveAndMergeChunksPhase::applyActionResult`.
Returns `none` when the `invariant(match != end)` would fire. -/
def applyMergeResult (st : MoveAndMergeChunksPhaseState)
    (mergeAction : MergeInfo) (mergeResponse : MStatus) :
    Option MoveAndMergeChunksPhaseState :=
  match st.findOutstandingMerge mergeAction.chunkRange with
  | none => none
  | some mergeRequest =>
      let st1 := { st with
        outstandingMerges := st.outstandingMerges.eraseP fun request =>
          mergeAction.chunkRange.containsKey
            (st.chunkAt request.chunkToMove).range.getMin }
      if st1.aborted then some st1 else
      let onRetriableError :=
        { st1 with actionableMerges := st1.actionableMerges ++ [mergeRequest] }
      some (handleActionResult mergeResponse
        (mergeOnSuccess st1 mergeRequest) onRetriableError
        (st1.abortPhase .kMergeChunks))

/-- `MoveAndMergeChunksPhase::applyActionResult`: dispatch on the action
variant; `none` models the `uasserted`/`stdx::get` failure paths. -/
def applyActionResult (st : MoveAndMergeChunksPhaseState)
    (action : DefragmentationAction) (response : DefragmentationActionResponse) :
    Option MoveAndMergeChunksPhaseState :=
  match action, response with
  | .migrateA migrationAction, .statusR migrationResponse =>
      st.applyMigrationResult migrationAction migrationResponse
  | .mergeA mergeAction, .statusR mergeResponse =>
      st.applyMergeResult mergeAction mergeResponse
  | _, _ => none

end MoveAndMergeChunksPhaseState

/-! ### MoveAndMergeChunksPhase::build -/

/-- The fields of a catalog `ChunkType` read by the build functions. -/
structure ChunkType where
  range : ChunkRange
  shard : ShardId
  estimatedSizeBytes : Option Nat
deriving DecidableEq, Repr

/-- The fields of `ClusterStatistics::ShardStatistics` read by the build. -/
structure ShardStatistics where
  shardId : ShardId
  currSizeBytes : Nat
  maxSizeBytes : Nat
  isDraining : Bool
deriving DecidableEq, Repr

/-- The chunk-loading loop of the `MoveAndMergeChunksPhase` constructor:
assign stable ids in routing-table order; report failure (second component
`true`) as soon as a chunk has no estimated size, keeping the prefix loaded
so far. -/
def loadCollectionChunks (firstId : Nat) :
    List ChunkType → List (ChunkId × ChunkRangeInfo) × Bool
  | [] => ([], false)
  | chunk :: rest =>
      match chunk.estimatedSizeBytes with
      | none => ([], true)
      | some estimatedChunkSize =>
          let (loaded, failed) := loadCollectionChunks (firstId + 1) rest
          ((firstId, ⟨chunk.range, chunk.shard, (estimatedChunkSize : Int), false⟩)
              :: loaded,
            failed)

/-- Group the loaded chunk ids with size below the threshold by owner shard
(`_smallChunksByShard` composition loop; `std::map` gives sorted shard keys). -/
def composeSmallChunks (threshold : Int) :
    List (ChunkId × ChunkRangeInfo) → List (ShardId × List ChunkId)
  | [] => []
  | (cid, info) :: rest =>
      let tail := composeSmallChunks threshold rest
      if info.estimatedSizeBytes ≤ threshold then
        mapBracketUpdate info.shard [] (fun l => cid :: l) tail
      else tail

/-- `MoveAndMergeChunksPhase::build` plus the constructor
(balancer_defragmentation_policy_impl.cpp, lines 320-348 and 666-716).
`collectionShardStats` comes from `getCollStats`, `collectionChunks` from
`getCollectionChunks`, `zoneOf` from `ZoneInfo::addTagsFromCatalog`, and
`maxChunkSizeBytes` from the balancer configuration. -/
def MoveAndMergeChunksPhaseState.build (uuid : Nat)
    (collectionChunks : List ChunkType)
    (collectionShardStats : List ShardStatistics)
    (zoneOf : ChunkRange → Nat) (maxChunkSizeBytes : Nat) :
    MoveAndMergeChunksPhaseState :=
  let shardInfos : List (ShardId × ShardInfo) :=
    collectionShardStats.map fun s =>
      (s.shardId, ⟨s.currSizeBytes, s.maxSizeBytes, s.isDraining⟩)
  let smallChunkSizeThresholdBytes : Int :=
    (smallChunkSizeThreshold maxChunkSizeBytes : Nat)
  let (loaded, failed) := loadCollectionChunks 0 collectionChunks
  let base : MoveAndMergeChunksPhaseState :=
    { uuid := uuid
      collectionChunks := loaded
      smallChunksByShard := []
      shardInfos := shardInfos
      shardProcessingOrder := []
      outstandingMigrations := []
      actionableMerges := []
      outstandingMerges := []
      zoneOf := zoneOf
      smallChunkSizeThresholdBytes := smallChunkSizeThresholdBytes
      aborted := false
      nextPhase := .kSplitChunks }
  if failed then
    -- a chunk with no estimated size was detected: warn and abort the build
    base.abortPhase .kMergeChunks
  else
    let small0 := composeSmallChunks smallChunkSizeThresholdBytes loaded
    -- each small chunk within a shard must be sorted by increasing chunk size
    let small1 := small0.map fun p =>
      (p.1, sortByBool
        (fun lhs rhs : ChunkId =>
          compareChunkRangeInfoSizes (base.chunkAt lhs) (base.chunkAt rhs))
        p.2)
    let order0 := shardInfos.map Prod.fst
    let order1 := sortByBool
      (fun lhs rhs : ShardId =>
        decide ((base.shardInfoAt lhs).currentSizeBytes ≥
          (base.shardInfoAt rhs).currentSizeBytes))
      order0
    { base with smallChunksByShard := small1, shardProcessingOrder := order1 }

/-! ## SplitChunksPhase

State and operations of `SplitChunksPhase`
(balancer_defragmentation_policy_impl.cpp, lines 842-1047). -/

/-- Per-shard pending work of `SplitChunksPhase`. -/
structure SplitPendingActions where
  rangesToFindSplitPoints : List ChunkRange
  rangesToSplit : List (ChunkRange × List BObj)
deriving DecidableEq, Repr

instance : Inhabited SplitPendingActions := ⟨⟨[], []⟩⟩

/-- `BSONObjMaxUserSize` (16 MiB). -/
def BSONObjMaxUserSize : Int := 16777216

/-- Mutable state of `SplitChunksPhase`. -/
structure SplitChunksPhaseState where
  uuid : Nat
  maxChunkSizeBytes : Nat
  pendingActionsByShards : List (ShardId × SplitPendingActions)
  outstandingActions : Nat
  aborted : Bool
  nextPhase : DefragmentationPhaseEnum
deriving DecidableEq, Repr

namespace SplitChunksPhaseState

/-- `SplitChunksPhase::getType` is `kSplitChunks`. -/
def getType (_ : SplitChunksPhaseState) : DefragmentationPhaseEnum := .kSplitChunks

/-- `SplitChunksPhase::isComplete`. -/
def isComplete (st : SplitChunksPhaseState) : Bool :=
  st.pendingActionsByShards.isEmpty && decide (st.outstandingActions = 0)

/-- `SplitChunksPhase::_abort`. -/
def abortPhase (st : SplitChunksPhaseState)
    (nextPhase : DefragmentationPhaseEnum) : SplitChunksPhaseState :=
  { st with aborted := true, nextPhase := nextPhase, pendingActionsByShards := [] }

/-- `SplitChunksPhase::moreSplitPointsToReceive`: the accumulated
`BSONObj::objsize()` of the returned split points (an `int` sum) reaches
`BSONObjMaxUserSize - 4096`. -/
def moreSplitPointsToReceive (splitPoints : List BObj) : Bool :=
  let totalSize : Int := splitPoints.foldl (fun size obj => size + (obj.objsize : Int)) 0
  decide (totalSize ≥ BSONObjMaxUserSize - 4096)

/-- `SplitChunksPhase::popNextStreamableAction`: from the first shard entry,
prefer an `ApplySplit` (back of `rangesToSplit`), else a `FindSplitPoints`
(back of `rangesToFindSplitPoints`). -/
def popNextStreamableAction (env : ShardId → Nat) (st : SplitChunksPhaseState) :
    Option DefragmentationAction × SplitChunksPhaseState :=
  match st.pendingActionsByShards with
  | [] => (none, st)
  | (shardId, pendingActions) :: rest =>
      let shardVersion := env shardId
      if pendingActions.rangesToSplit.isEmpty then
        if pendingActions.rangesToFindSplitPoints.isEmpty then (none, st)
        else
          let rangeToAutoSplit := (pendingActions.rangesToFindSplitPoints.getLast?).getD default
          let pending2 : SplitPendingActions :=
            { pendingActions with
              rangesToFindSplitPoints := pendingActions.rangesToFindSplitPoints.dropLast }
          let nextAction : DefragmentationAction :=
            .autoSplitA ⟨shardId, st.uuid, shardVersion, rangeToAutoSplit.getMin,
              rangeToAutoSplit.getMax, st.maxChunkSizeBytes⟩
          let byShards :=
            if pending2.rangesToFindSplitPoints.isEmpty && pending2.rangesToSplit.isEmpty
            then rest else (shardId, pending2) :: rest
          (some nextAction,
            { st with
              pendingActionsByShards := byShards
              outstandingActions := st.outstandingActions + 1 })
      else
        let entry := (pendingActions.rangesToSplit.getLast?).getD (default, [])
        let pending2 : SplitPendingActions :=
          { pendingActions with rangesToSplit := pendingActions.rangesToSplit.dropLast }
        let nextAction : DefragmentationAction :=
          .splitA ⟨shardId, st.uuid, shardVersion, entry.1.getMin, entry.1.getMax, entry.2⟩
        let byShards :=
          if pending2.rangesToFindSplitPoints.isEmpty && pending2.rangesToSplit.isEmpty
          then rest else (shardId, pending2) :: rest
        (some nextAction,
          { st with
            pendingActionsByShards := byShards
            outstandingActions := st.outstandingActions + 1 })

/-- `SplitChunksPhase::applyActionResult`.  Returns `none` on the
`uasserted`/`stdx::get` failure paths; the `ScopeGuard` decrement of
`_outstandingActions` applies on every path. -/
def applyActionResult (st : SplitChunksPhaseState)
    (action : DefragmentationAction) (response : DefragmentationActionResponse) :
    Option SplitChunksPhaseState :=
  let decr : SplitChunksPhaseState → SplitChunksPhaseState := fun s =>
    { s with outstandingActions := s.outstandingActions - 1 }
  match action, response with
  | .autoSplitA autoSplitVectorAction, .splitPointsR status splitPoints =>
      if st.aborted then some (decr st) else
      let onSuccess :=
        if splitPoints.isEmpty then st
        else
          let queriedRange : ChunkRange :=
            ⟨autoSplitVectorAction.minKey, autoSplitVectorAction.maxKey⟩
          let pushSplit := fun (p : SplitPendingActions) =>
            let p1 := { p with rangesToSplit := p.rangesToSplit ++ [(queriedRange, splitPoints)] }
            -- TODO (SERVER-61678 in the source): replace with continuation flag
            if moreSplitPointsToReceive splitPoints then
              { p1 with
                rangesToFindSplitPoints := p1.rangesToFindSplitPoints ++
                  [⟨(splitPoints.getLast?).getD default, autoSplitVectorAction.maxKey⟩] }
            else p1
          { st with
            pendingActionsByShards :=
              mapBracketUpdate autoSplitVectorAction.shardId default pushSplit
                st.pendingActionsByShards }
      let onRetriableError :=
        let pushBack := fun (p : SplitPendingActions) =>
          { p with
            rangesToFindSplitPoints := p.rangesToFindSplitPoints ++
              [⟨autoSplitVectorAction.minKey, autoSplitVectorAction.maxKey⟩] }
        { st with
          pendingActionsByShards :=
            mapBracketUpdate autoSplitVectorAction.shardId default pushBack
              st.pendingActionsByShards }
      some (decr (handleActionResult status onSuccess onRetriableError
        (st.abortPhase st.getType)))
  | .splitA splitAction, .statusR splitResponse =>
      if st.aborted then some (decr st) else
      let onRetriableError :=
        let pushBack := fun (p : SplitPendingActions) =>
          { p with
            rangesToSplit := p.rangesToSplit ++
              [(⟨splitAction.minKey, splitAction.maxKey⟩, splitAction.splitKeys)] }
        { st with
          pendingActionsByShards :=
            mapBracketUpdate splitAction.shardId default pushBack
              st.pendingActionsByShards }
      some (decr (handleActionResult splitResponse st onRetriableError
        (st.abortPhase st.getType)))
  | _, _ => none

end SplitChunksPhaseState

/-- `SplitChunksPhase::build`: queue a `FindSplitPoints` for every chunk with
no estimated size or an estimated size above the max chunk size. -/
def SplitChunksPhaseState.build (uuid : Nat) (collectionChunks : List ChunkType)
    (maxChunkSizeBytes : Nat) : SplitChunksPhaseState :=
  let pendingActionsByShards :=
    collectionChunks.foldl
      (fun acc chunk =>
        match chunk.estimatedSizeBytes with
        | none =>
            mapBracketUpdate chunk.shard default
              (fun p : SplitPendingActions =>
                { p with rangesToFindSplitPoints := p.rangesToFindSplitPoints ++ [chunk.range] })
              acc
        | some chunkSize =>
            if chunkSize > maxChunkSizeBytes then
              mapBracketUpdate chunk.shard default
                (fun p : SplitPendingActions =>
                  { p with rangesToFindSplitPoints := p.rangesToFindSplitPoints ++ [chunk.range] })
                acc
            else acc)
      []
  { uuid := uuid
    maxChunkSizeBytes := maxChunkSizeBytes
    pendingActionsByShards := pendingActionsByShards
    outstandingActions := 0
    aborted := false
    nextPhase := .kFinished }

/-! ## The policy engine (`BalancerDefragmentationPolicyImpl`)

Lines 1051-1328 of the source.  The engine owns a map
collection-UUID → phase, a streaming-concurrency counter, the single
pending-consumer slot and the `streamClosed` flag.  Catalog-dependent
operations — `getShardVersion` inside the phase pop functions, and the
construction of new phase objects from the catalog in `_transitionPhases` —
are supplied by a `PolicyEnv`. -/

/-- The phase sum type held per enrolled collection. -/
inductive PhaseState where
  | mergeP (s : MergeChunksPhaseState)
  | moveAndMergeP (s : MoveAndMergeChunksPhaseState)
  | splitP (s : SplitChunksPhaseState)

/-- `DefragmentationPhase::isComplete` dispatch. -/
def PhaseState.isComplete : PhaseState → Bool
  | .mergeP s => s.isComplete
  | .moveAndMergeP s => s.isComplete
  | .splitP s => s.isComplete

/-- `DefragmentationPhase::getNextPhase` dispatch. -/
def PhaseState.getNextPhase : PhaseState → DefragmentationPhaseEnum
  | .mergeP s => s.nextPhase
  | .moveAndMergeP s => s.nextPhase
  | .splitP s => s.nextPhase

/-- `DefragmentationPhase::popNextStreamableAction` dispatch. -/
def PhaseState.popNextStreamableAction (env : ShardId → Nat) :
    PhaseState → Option DefragmentationAction × PhaseState
  | .mergeP s =>
      let (a, s2) := s.popNextStreamableAction env
      (a, .mergeP s2)
  | .moveAndMergeP s =>
      let (a, s2) := s.popNextStreamableAction env
      (a, .moveAndMergeP s2)
  | .splitP s =>
      let (a, s2) := s.popNextStreamableAction env
      (a, .splitP s2)

/-- `DefragmentationPhase::popNextMigration` dispatch (only the
move-and-merge phase produces migrations). -/
def PhaseState.popNextMigration (env : ShardId → Nat) (usedShards : List ShardId) :
    PhaseState → Option MigrateInfo × PhaseState × List ShardId
  | .mergeP s => (none, .mergeP s, usedShards)
  | .moveAndMergeP s =>
      let (m, s2, used2) := s.popNextMigration env usedShards
      (m, .moveAndMergeP s2, used2)
  | .splitP s => (none, .splitP s, usedShards)

/-- `DefragmentationPhase::applyActionResult` dispatch. -/
def PhaseState.applyActionResult (action : DefragmentationAction)
    (response : DefragmentationActionResponse) : PhaseState → Option PhaseState
  | .mergeP s => (s.applyActionResult action response).map .mergeP
  | .moveAndMergeP s => (s.applyActionResult action response).map .moveAndMergeP
  | .splitP s => (s.applyActionResult action response).map .splitP

/-- External collaborators of the engine: `version` is `getShardVersion`
(a catalog read); `buildPhase uuid phase` is the catalog-dependent
construction of a phase object performed inside `_transitionPhases`
(`MergeChunksPhase::build` / `MoveAndMergeChunksPhase::build` /
`SplitChunksPhase::build` applied to the current catalog contents), with
`none` modelling a persistence or build failure caught there. -/
structure PolicyEnv where
  version : ShardId → Nat
  buildPhase : Nat → DefragmentationPhaseEnum → Option PhaseState

/-- `BalancerDefragmentationPolicyImpl::_transitionPhases`: persist the tag,
then build the phase object for the new tag (`kFinished` builds nothing and
clears the persisted size estimates); any failure is caught and yields a null
phase. -/
def transitionPhases (env : PolicyEnv) (uuid : Nat)
    (nextPhase : DefragmentationPhaseEnum) : Option PhaseState :=
  match nextPhase with
  | .kFinished => none
  | p => env.buildPhase uuid p

/-- `BalancerDefragmentationPolicyImpl::_refreshDefragmentationPhaseFor`:
while the current phase is complete, transition to its next phase.  `fuel`
bounds the number of transitions (the C++ `while` loop). -/
def refreshPhase (env : PolicyEnv) (uuid : Nat) :
    Nat → Option PhaseState → Option PhaseState
  | _, none => none
  | 0, some p => some p
  | fuel + 1, some p =>
      if p.isComplete then
        refreshPhase env uuid fuel (transitionPhases env uuid p.getNextPhase)
      else some p

/-- Engine state (`BalancerDefragmentationPolicyImpl` fields). -/
structure EngineState where
  defragmentationStates : List (Nat × PhaseState)
  concurrentStreamingOps : Int
  kMaxConcurrentOperations : Nat
  /-- whether `_nextStreamingActionPromise` holds a parked consumer. -/
  hasPendingPromise : Bool
  streamClosed : Bool

/-- The loop of `_nextStreamingAction` over `_defragmentationStates`:
refresh each collection's phase (erasing it when the refresh ends on a null
phase), then pop; the first collection that yields an action wins. -/
def nextStreamingActionAux (env : PolicyEnv) (fuel : Nat) :
    List (Nat × PhaseState) →
      Option DefragmentationAction × List (Nat × PhaseState)
  | [] => (none, [])
  | (uuid, p) :: rest =>
      match refreshPhase env uuid fuel (some p) with
      | none => nextStreamingActionAux env fuel rest
      | some p1 =>
          let (nextAction, p2) := p1.popNextStreamableAction env.version
          match nextAction with
          | some a => (some a, (uuid, p2) :: rest)
          | none =>
              let (r, rest2) := nextStreamingActionAux env fuel rest
              (r, (uuid, p2) :: rest2)

/-- `BalancerDefragmentationPolicyImpl::_nextStreamingAction`.

Note on the final lines of the source (1169-1173): `noAction` is declared as
an empty `boost::optional<DefragmentationAction>` and, when `_streamClosed`
holds, is assigned `boost::optional<EndOfActionStream>()` — a *disengaged*
optional of the action alternative; boost's converting assignment preserves
disengagement, so the branch leaves `noAction` empty and the function returns
none even when the stream is closed.  The dead branch is kept visible here. -/
def nextStreamingAction (env : PolicyEnv) (fuel : Nat) (st : EngineState) :
    Option DefragmentationAction × EngineState :=
  let (a, states2) := nextStreamingActionAux env fuel st.defragmentationStates
  match a with
  | some act => (some act, { st with defragmentationStates := states2 })
  | none =>
      let noAction : Option DefragmentationAction :=
        if st.streamClosed then none else none
      (noAction, { st with defragmentationStates := states2 })

/-- The immediate outcome of `getNextStreamingAction`: a future already
resolved with an action, or a parked (pending) future. -/
inductive StreamResult where
  | ready (a : DefragmentationAction)
  | parked
deriving DecidableEq, Repr

/-- `BalancerDefragmentationPolicyImpl::getNextStreamingAction`. -/
def getNextStreamingAction (env : PolicyEnv) (fuel : Nat) (st : EngineState) :
    StreamResult × EngineState :=
  if st.concurrentStreamingOps < (st.kMaxConcurrentOperations : Int) then
    match nextStreamingAction env fuel st with
    | (some action, st2) =>
        (.ready action,
          { st2 with concurrentStreamingOps := st2.concurrentStreamingOps + 1 })
    | (none, st2) => (.parked, { st2 with hasPendingPromise := true })
  else (.parked, { st with hasPendingPromise := true })

/-- `BalancerDefragmentationPolicyImpl::_processEndOfAction`: fulfil a parked
consumer if an action is available (without touching the counter), otherwise
just lower the counter. -/
def processEndOfAction (env : PolicyEnv) (fuel : Nat) (st : EngineState) :
    EngineState :=
  if st.hasPendingPromise then
    match nextStreamingAction env fuel st with
    | (some _, st2) => { st2 with hasPendingPromise := false }
    | (none, st2) =>
        { st2 with concurrentStreamingOps := st2.concurrentStreamingOps - 1 }
  else { st with concurrentStreamingOps := st.concurrentStreamingOps - 1 }

/-- Common body of the five `acknowledge*Result` entry points: if the
action's collection is no longer enrolled the result is dropped silently;
otherwise dispatch to the phase and run `_processEndOfAction`.  `none`
models a `uasserted` escaping `applyActionResult`. -/
def acknowledgeResult (env : PolicyEnv) (fuel : Nat) (st : EngineState)
    (uuid : Nat) (action : DefragmentationAction)
    (response : DefragmentationActionResponse) : Option EngineState :=
  match alookup uuid st.defragmentationStates with
  | none => some st
  | some p =>
      match p.applyActionResult action response with
      | none => none
      | some p2 =>
          let st1 := { st with
            defragmentationStates :=
              updateEntry uuid (fun _ => p2) st.defragmentationStates }
          some (processEndOfAction env fuel st1)

/-- `acknowledgeMergeResult`. -/
def acknowledgeMergeResult (env : PolicyEnv) (fuel : Nat) (st : EngineState)
    (action : MergeInfo) (result : MStatus) : Option EngineState :=
  acknowledgeResult env fuel st action.uuid (.mergeA action) (.statusR result)

/-- `acknowledgeDataSizeResult`. -/
def acknowledgeDataSizeResult (env : PolicyEnv) (fuel : Nat) (st : EngineState)
    (action : DataSizeInfo) (result : MStatus) (sizeBytes : Nat) :
    Option EngineState :=
  acknowledgeResult env fuel st action.uuid (.dataSizeA action)
    (.dataSizeR result sizeBytes)

/-- `acknowledgeAutoSplitVectorResult`. -/
def acknowledgeAutoSplitVectorResult (env : PolicyEnv) (fuel : Nat)
    (st : EngineState) (action : AutoSplitVectorInfo) (result : MStatus)
    (points : List BObj) : Option EngineState :=
  acknowledgeResult env fuel st action.uuid (.autoSplitA action)
    (.splitPointsR result points)

/-- `acknowledgeSplitResult`. -/
def acknowledgeSplitResult (env : PolicyEnv) (fuel : Nat) (st : EngineState)
    (action : SplitInfoWithKeyPattern) (result : MStatus) : Option EngineState :=
  acknowledgeResult env fuel st action.uuid (.splitA action) (.statusR result)

/-- `acknowledgeMoveResult`. -/
def acknowledgeMoveResult (env : PolicyEnv) (fuel : Nat) (st : EngineState)
    (action : MigrateInfo) (result : MStatus) : Option EngineState :=
  acknowledgeResult env fuel st action.uuid (.migrateA action) (.statusR result)

/-- `BalancerDefragmentationPolicyImpl::closeActionStream`: clear all
collections, fulfil any parked consumer with `EndOfActionStream`, mark the
stream closed. -/
def closeActionStream (st : EngineState) : EngineState :=
  { st with
    defragmentationStates := []
    hasPendingPromise := false
    streamClosed := true }

/-- One pass of `selectChunksToMove` over all collections: refresh (erasing
collections whose refresh ends on a null phase), then `popNextMigration`. -/
def selectPass (env : PolicyEnv) (fuel : Nat) :
    List (Nat × PhaseState) → List ShardId →
      List MigrateInfo × List (Nat × PhaseState) × List ShardId
  | [], usedShards => ([], [], usedShards)
  | (uuid, p) :: rest, usedShards =>
      match refreshPhase env uuid fuel (some p) with
      | none => selectPass env fuel rest usedShards
      | some p1 =>
          let (actionableMigration, p2, used1) :=
            p1.popNextMigration env.version usedShards
          let (ms, rest2, used2) := selectPass env fuel rest used1
          (actionableMigration.toList ++ ms, (uuid, p2) :: rest2, used2)

/-- The `while (!done)` loop of `selectChunksToMove`: repeat passes until one
adds no migration.  `loopFuel` bounds the iteration count; the last component
records whether the loop reached its exit condition within the bound. -/
def selectLoop (env : PolicyEnv) (fuel : Nat) :
    Nat → List (Nat × PhaseState) → List ShardId → List MigrateInfo →
      List MigrateInfo × List (Nat × PhaseState) × List ShardId × Bool
  | 0, states, usedShards, acc => (acc, states, usedShards, false)
  | loopFuel + 1, states, usedShards, acc =>
      let (ms, states2, used2) := selectPass env fuel states usedShards
      if ms.isEmpty then (acc, states2, used2, true)
      else selectLoop env fuel loopFuel states2 used2 (acc ++ ms)

/-- `BalancerDefragmentationPolicyImpl::selectChunksToMove`. -/
def selectChunksToMove (env : PolicyEnv) (fuel loopFuel : Nat)
    (st : EngineState) (usedShards : List ShardId) :
    List MigrateInfo × List (Nat × PhaseState) × List ShardId × Bool :=
  selectLoop env fuel loopFuel st.defragmentationStates usedShards []

/-! ## Association-list lemmas -/

theorem alookup_updateEntry_self {α : Type} (k : Nat) (f : α → α)
    (m : List (Nat × α)) : alookup k (updateEntry k f m) = (alookup k m).map f := by
  induction m with
  | nil => simp [alookup, updateEntry]
  | cons e rest ih =>
      obtain ⟨k2, v⟩ := e
      by_cases h : k2 = k
      · simp [alookup, updateEntry, h]
      · simp [alookup, updateEntry, h, ih]

theorem alookup_updateEntry_ne {α : Type} (k k2 : Nat) (f : α → α)
    (m : List (Nat × α)) (h : k2 ≠ k) :
    alookup k2 (updateEntry k f m) = alookup k2 m := by
  induction m with
  | nil => simp [alookup, updateEntry]
  | cons e rest ih =>
      obtain ⟨k3, v⟩ := e
      by_cases h3 : k3 = k
      · subst h3
        have hne : k3 ≠ k2 := fun hh => h hh.symm
        simp [alookup, updateEntry, hne]
      · simp only [updateEntry, if_neg h3]
        by_cases h4 : k3 = k2
        · simp [alookup, h4]
        · simp [alookup, h4, ih]

theorem alookup_insertSortedEntry_self {α : Type} (k : Nat) (v : α)
    (m : List (Nat × α)) : alookup k (insertSortedEntry k v m) = some v := by
  induction m with
  | nil => simp [alookup, insertSortedEntry]
  | cons e rest ih =>
      obtain ⟨k2, v2⟩ := e
      by_cases h : k ≤ k2
      · simp [alookup, insertSortedEntry, h]
      · have hne : k2 ≠ k := by omega
        simp [alookup, insertSortedEntry, h, hne, ih]

theorem alookup_mapBracketUpdate_self {α : Type} (k : Nat) (dflt : α)
    (f : α → α) (m : List (Nat × α)) :
    alookup k (mapBracketUpdate k dflt f m) =
      some (f ((alookup k m).getD dflt)) := by
  unfold mapBracketUpdate
  cases h : alookup k m with
  | none => simp [alookup_insertSortedEntry_self, h]
  | some v => simp [alookup_updateEntry_self, h]

theorem alookup_eraseEntry_of_nodup {α : Type} (k : Nat) (m : List (Nat × α))
    (hnd : (m.map Prod.fst).Nodup) : alookup k (eraseEntry k m) = none := by
  induction m with
  | nil => simp [alookup, eraseEntry]
  | cons e rest ih =>
      obtain ⟨k2, v⟩ := e
      simp only [List.map_cons, List.nodup_cons] at hnd
      by_cases h : k2 = k
      · subst h
        simp only [eraseEntry, if_pos rfl]
        cases hl : alookup k2 rest with
        | none => exact hl
        | some w =>
            exfalso
            apply hnd.1
            clear ih hnd
            induction rest with
            | nil => simp [alookup] at hl
            | cons e2 r2 ih2 =>
                obtain ⟨k3, v3⟩ := e2
                by_cases h3 : k3 = k2
                · simp [h3]
                · simp only [alookup, if_neg h3] at hl
                  simp only [List.map_cons, List.mem_cons]
                  exact Or.inr (ih2 hl)
      · simp only [eraseEntry, if_neg h, alookup, if_neg h]
        exact ih hnd.2

theorem alookup_eraseEntry_ne {α : Type} (k k2 : Nat) (m : List (Nat × α))
    (h : k2 ≠ k) : alookup k2 (eraseEntry k m) = alookup k2 m := by
  induction m with
  | nil => simp [alookup, eraseEntry]
  | cons e rest ih =>
      obtain ⟨k3, v⟩ := e
      by_cases h3 : k3 = k
      · subst h3
        have hne : k3 ≠ k2 := fun hh => h hh.symm
        simp [alookup, eraseEntry, hne]
      · simp only [eraseEntry, if_neg h3]
        by_cases h4 : k3 = k2
        · simp [alookup, h4]
        · simp [alookup, h4, ih]

/-! ## C4 — the small-chunk threshold arithmetic -/

/-- C4: for every `maxChunkSizeBytes`, the small-chunk threshold used by the
move-and-merge phase (as stored by `MoveAndMergeChunksPhase::build` in
`_smallChunkSizeThresholdBytes`) equals `maxChunkSizeBytes / 100 * 25`
computed with integer division; in particular for `maxChunkSizeBytes = 103`
the threshold is exactly `25`. -/
theorem c4_small_chunk_threshold_integer_division :
    (∀ maxChunkSizeBytes : Nat,
      smallChunkSizeThreshold maxChunkSizeBytes = maxChunkSizeBytes / 100 * 25) ∧
    (∀ (uuid : Nat) (chunks : List ChunkType) (stats : List ShardStatistics)
        (zoneOf : ChunkRange → Nat) (maxChunkSizeBytes : Nat),
      (MoveAndMergeChunksPhaseState.build uuid chunks stats zoneOf
          maxChunkSizeBytes).smallChunkSizeThresholdBytes =
        ((maxChunkSizeBytes / 100 * 25 : Nat) : Int)) ∧
    smallChunkSizeThreshold 103 = 25 := by
  refine ⟨fun _ => rfl, fun uuid chunks stats zoneOf m => ?_, rfl⟩
  unfold MoveAndMergeChunksPhaseState.build
  cases loadCollectionChunks 0 chunks with
  | mk loaded failed =>
      cases failed <;>
        simp [MoveAndMergeChunksPhaseState.abortPhase, smallChunkSizeThreshold,
          kSmallChunkSizeThresholdPctg]

/-! ## C2 — abort of the CoalesceAdjacent (MergeChunks) phase -/

/-- A `MergeChunksPhase` state with pending work and the default
(normal-completion) next phase. -/
def c2state : MergeChunksPhaseState :=
  { uuid := 7
    pendingActionsByShards := [(0, ⟨[⟨⟨0, 0⟩, ⟨10, 0⟩⟩], []⟩)]
    outstandingActions := 1
    aborted := false
    nextPhase := .kMoveAndMergeChunks }

/-- The merge action whose result is acknowledged in the C2 scenario. -/
def c2action : MergeInfo := ⟨0, 7, 0, ⟨⟨0, 0⟩, ⟨10, 0⟩⟩⟩

/-- C2 counterexample: acknowledging a non-retriable merge error on a live
`MergeChunksPhase` state leaves `nextPhase = kMergeChunks` (the phase falls
back to itself), not `kMoveAndMergeChunks` as the claim states. -/
theorem c2_counterexample_nextPhase_not_moveAndMerge :
    c2state.aborted = false ∧
      ¬ ((c2state.applyActionResult (.mergeA c2action)
            (.statusR (.err false))).map MergeChunksPhaseState.nextPhase =
          some .kMoveAndMergeChunks) := by
  decide

/-- C2 (amended): when the CoalesceAdjacent (MergeChunks) phase receives a
non-retriable error result for one of its merge or measure actions it aborts:
its pending per-shard work is cleared, but its `nextPhase` becomes
`kMergeChunks` — the phase falls back to itself (re-coalescing), unlike
normal completion whose next phase is `kMoveAndMergeChunks`. -/
theorem c2_nonretriable_error_aborts_to_mergeChunks
    (st : MergeChunksPhaseState) (h : st.aborted = false) :
    (∀ m : MergeInfo, ∃ st2,
      st.applyActionResult (.mergeA m) (.statusR (.err false)) = some st2 ∧
        st2.pendingActionsByShards = [] ∧ st2.aborted = true ∧
        st2.nextPhase = .kMergeChunks) ∧
    (∀ (d : DataSizeInfo) (sz : Nat), ∃ st2,
      st.applyActionResult (.dataSizeA d) (.dataSizeR (.err false) sz) = some st2 ∧
        st2.pendingActionsByShards = [] ∧ st2.aborted = true ∧
        st2.nextPhase = .kMergeChunks) := by
  constructor
  · intro m
    simp only [MergeChunksPhaseState.applyActionResult, h, handleActionResult,
      MergeChunksPhaseState.abortPhase, MergeChunksPhaseState.getType,
      Bool.false_eq_true, if_false]
    exact ⟨_, rfl, rfl, rfl, rfl⟩
  · intro d sz
    simp only [MergeChunksPhaseState.applyActionResult, h, handleActionResult,
      MergeChunksPhaseState.abortPhase, MergeChunksPhaseState.getType,
      Bool.false_eq_true, if_false]
    exact ⟨_, rfl, rfl, rfl, rfl⟩

/-- Witness for C2: the amended theorem applied to the concrete state and
merge action of the counterexample scenario. -/
theorem c2_witness :
    c2state.aborted = false ∧
      (∃ st2,
        c2state.applyActionResult (.mergeA c2action) (.statusR (.err false)) =
            some st2 ∧
          st2.pendingActionsByShards = [] ∧ st2.aborted = true ∧
          st2.nextPhase = .kMergeChunks) :=
  ⟨rfl, (c2_nonretriable_error_aborts_to_mergeChunks c2state rfl).1 c2action⟩

/-! ## C9 — FindSplitPoints success handling in the SplitLarge phase -/

/-- The per-shard pending entry of a split phase (empty when absent). -/
def splitPendingAt (st : SplitChunksPhaseState) (sh : ShardId) :
    SplitPendingActions :=
  (alookup sh st.pendingActionsByShards).getD default

/-- The accumulated `objsize` of a list of split keys, as in
`moreSplitPointsToReceive`. -/
def splitPointsTotalSize (splitPoints : List BObj) : Int :=
  splitPoints.foldl (fun size obj => size + (obj.objsize : Int)) 0

/-- A split phase state with no pending work, for the C9 scenario. -/
def c9state : SplitChunksPhaseState :=
  { uuid := 3
    maxChunkSizeBytes := 1000
    pendingActionsByShards := []
    outstandingActions := 1
    aborted := false
    nextPhase := .kFinished }

/-- The `FindSplitPoints` action of the C9 scenario. -/
def c9action : AutoSplitVectorInfo := ⟨5, 3, 0, ⟨0, 0⟩, ⟨100, 0⟩, 1000⟩

/-- A single returned split key whose size makes the accumulated bytes
exactly `BSONObjMaxUserSize - 4096`. -/
def c9points : List BObj := [⟨50, 16773120⟩]

/-- C9 counterexample: with accumulated key bytes exactly
`BSONObjMaxUserSize - 4096` (so NOT strictly exceeding it), a successful
`FindSplitPoints` acknowledgment still enqueues the continuation range on
`rangesToFindSplitPoints` — the source tests `>=`, the claim's "exceeds"
(strictly) is wrong at this boundary input. -/
theorem c9_counterexample_boundary_enqueues_continuation :
    splitPointsTotalSize c9points = BSONObjMaxUserSize - 4096 ∧
      ¬ splitPointsTotalSize c9points > BSONObjMaxUserSize - 4096 ∧
      ((c9state.applyActionResult (.autoSplitA c9action)
            (.splitPointsR .ok c9points)).map
          (fun s => (splitPendingAt s c9action.shardId).rangesToFindSplitPoints)) =
        some [⟨⟨50, 16773120⟩, ⟨100, 0⟩⟩] := by
  decide

/-- C9 (amended): on a successful `FindSplitPoints` acknowledgment with a
non-empty key list, the pair (queried range, returned keys) is appended to
the owning shard's `rangesToSplit`, and `(last returned key, original range
max)` is additionally appended to that shard's `rangesToFindSplitPoints` if
and only if the accumulated byte size of the returned keys is at least
(`>=`, not strictly greater than) `BSONObjMaxUserSize - 4096`; a successful
response with an empty key list enqueues nothing. -/
theorem c9_autoSplitVector_success (st : SplitChunksPhaseState)
    (a : AutoSplitVectorInfo) (points : List BObj) (h : st.aborted = false) :
    (points = [] → ∃ st2,
      st.applyActionResult (.autoSplitA a) (.splitPointsR .ok points) = some st2 ∧
        st2.pendingActionsByShards = st.pendingActionsByShards) ∧
    (points ≠ [] → ∃ st2,
      st.applyActionResult (.autoSplitA a) (.splitPointsR .ok points) = some st2 ∧
        (splitPendingAt st2 a.shardId).rangesToSplit =
          (splitPendingAt st a.shardId).rangesToSplit ++
            [(⟨a.minKey, a.maxKey⟩, points)] ∧
        (splitPendingAt st2 a.shardId).rangesToFindSplitPoints =
          (splitPendingAt st a.shardId).rangesToFindSplitPoints ++
            (if splitPointsTotalSize points ≥ BSONObjMaxUserSize - 4096 then
              [⟨(points.getLast?).getD default, a.maxKey⟩] else [])) := by
  constructor
  · intro hp
    subst hp
    simp only [SplitChunksPhaseState.applyActionResult, h, handleActionResult,
      List.isEmpty_nil, if_false, Bool.false_eq_true, if_true]
    exact ⟨_, rfl, rfl⟩
  · intro hp
    have hpe : points.isEmpty = false := by
      cases points with
      | nil => exact absurd rfl hp
      | cons a b => rfl
    simp only [SplitChunksPhaseState.applyActionResult, h, handleActionResult,
      hpe, Bool.false_eq_true, if_false]
    refine ⟨_, rfl, ?_, ?_⟩
    · simp only [splitPendingAt, alookup_mapBracketUpdate_self]
      unfold SplitChunksPhaseState.moreSplitPointsToReceive
      split <;> simp
    · simp only [splitPendingAt, alookup_mapBracketUpdate_self]
      unfold SplitChunksPhaseState.moreSplitPointsToReceive
      by_cases hge : splitPointsTotalSize points ≥ BSONObjMaxUserSize - 4096
      · rw [if_pos hge]
        rw [if_pos]
        · simp
        · exact decide_eq_true_eq.mpr hge
      · rw [if_neg hge]
        rw [if_neg]
        · simp
        · simp only [decide_eq_true_eq]
          exact hge

/-- Witness for C9: the amended theorem applied at the boundary input of the
counterexample (non-empty key list whose sizes sum to exactly
`BSONObjMaxUserSize - 4096`). -/
theorem c9_witness :
    c9state.aborted = false ∧ c9points ≠ [] ∧
      (∃ st2,
        c9state.applyActionResult (.autoSplitA c9action)
            (.splitPointsR .ok c9points) = some st2 ∧
          (splitPendingAt st2 c9action.shardId).rangesToSplit =
            (splitPendingAt c9state c9action.shardId).rangesToSplit ++
              [(⟨c9action.minKey, c9action.maxKey⟩, c9points)] ∧
          (splitPendingAt st2 c9action.shardId).rangesToFindSplitPoints =
            (splitPendingAt c9state c9action.shardId).rangesToFindSplitPoints ++
              (if splitPointsTotalSize c9points ≥ BSONObjMaxUserSize - 4096 then
                [⟨(c9points.getLast?).getD default, c9action.maxKey⟩] else [])) :=
  ⟨rfl, by decide,
    (c9_autoSplitVector_success c9state c9action c9points rfl).2 (by decide)⟩

/-! ## C6 — acknowledgments for cancelled collections are no-ops -/

/-- C6: every `acknowledge*Result` entry point whose action refers to a
collection UUID not present in the engine's collection map is a no-op: the
result is dropped and the whole engine state (collection map, streaming-ops
counter, pending consumer slot, `streamClosed` flag) is returned unchanged. -/
theorem c6_acknowledge_absent_uuid_is_noop (env : PolicyEnv) (fuel : Nat)
    (st : EngineState) :
    (∀ (a : MergeInfo) (r : MStatus),
      alookup a.uuid st.defragmentationStates = none →
        acknowledgeMergeResult env fuel st a r = some st) ∧
    (∀ (a : DataSizeInfo) (r : MStatus) (sz : Nat),
      alookup a.uuid st.defragmentationStates = none →
        acknowledgeDataSizeResult env fuel st a r sz = some st) ∧
    (∀ (a : AutoSplitVectorInfo) (r : MStatus) (pts : List BObj),
      alookup a.uuid st.defragmentationStates = none →
        acknowledgeAutoSplitVectorResult env fuel st a r pts = some st) ∧
    (∀ (a : SplitInfoWithKeyPattern) (r : MStatus),
      alookup a.uuid st.defragmentationStates = none →
        acknowledgeSplitResult env fuel st a r = some st) ∧
    (∀ (a : MigrateInfo) (r : MStatus),
      alookup a.uuid st.defragmentationStates = none →
        acknowledgeMoveResult env fuel st a r = some st) := by
  refine ⟨fun a r h => ?_, fun a r sz h => ?_, fun a r pts h => ?_,
    fun a r h => ?_, fun a r h => ?_⟩ <;>
    simp [acknowledgeMergeResult, acknowledgeDataSizeResult,
      acknowledgeAutoSplitVectorResult, acknowledgeSplitResult,
      acknowledgeMoveResult, acknowledgeResult, h]

/-- Engine environment for the C6 witness scenario. -/
def c6env : PolicyEnv := ⟨fun _ => 0, fun _ _ => none⟩

/-- Engine state with no enrolled collections for the C6 witness. -/
def c6state : EngineState :=
  { defragmentationStates := []
    concurrentStreamingOps := 1
    kMaxConcurrentOperations := 50
    hasPendingPromise := false
    streamClosed := false }

/-- Witness for C6: all five acknowledge entry points, applied to concrete
actions for the unenrolled UUID 9, return the engine state unchanged. -/
theorem c6_witness :
    alookup 9 c6state.defragmentationStates = none ∧
      acknowledgeMergeResult c6env 1 c6state ⟨0, 9, 0, default⟩ .ok = some c6state ∧
      acknowledgeDataSizeResult c6env 1 c6state ⟨0, 9, default, 0⟩ .ok 5 =
        some c6state ∧
      acknowledgeAutoSplitVectorResult c6env 1 c6state
          ⟨0, 9, 0, default, default, 10⟩ .ok [] = some c6state ∧
      acknowledgeSplitResult c6env 1 c6state ⟨0, 9, 0, default, default, []⟩ .ok =
        some c6state ∧
      acknowledgeMoveResult c6env 1 c6state ⟨0, 9, 1, default, default, 0⟩ .ok =
        some c6state :=
  ⟨rfl,
    (c6_acknowledge_absent_uuid_is_noop c6env 1 c6state).1 ⟨0, 9, 0, default⟩ .ok rfl,
    (c6_acknowledge_absent_uuid_is_noop c6env 1 c6state).2.1 ⟨0, 9, default, 0⟩ .ok 5
      rfl,
    (c6_acknowledge_absent_uuid_is_noop c6env 1 c6state).2.2.1
      ⟨0, 9, 0, default, default, 10⟩ .ok [] rfl,
    (c6_acknowledge_absent_uuid_is_noop c6env 1 c6state).2.2.2.1
      ⟨0, 9, 0, default, default, []⟩ .ok rfl,
    (c6_acknowledge_absent_uuid_is_noop c6env 1 c6state).2.2.2.2
      ⟨0, 9, 1, default, default, 0⟩ .ok rfl⟩

/-! ## Lemmas on the small-chunk index and chunk list mutations -/

theorem updateEntry_keys {α : Type} (k : Nat) (f : α → α) (m : List (Nat × α)) :
    (updateEntry k f m).map Prod.fst = m.map Prod.fst := by
  induction m with
  | nil => rfl
  | cons e rest ih =>
      obtain ⟨k2, v⟩ := e
      by_cases h : k2 = k <;> simp [updateEntry, h, ih]

theorem eraseEntry_keys_sublist {α : Type} (k : Nat) (m : List (Nat × α)) :
    ((eraseEntry k m).map Prod.fst).Sublist (m.map Prod.fst) := by
  induction m with
  | nil => simp [eraseEntry]
  | cons e rest ih =>
      obtain ⟨k2, v⟩ := e
      by_cases h : k2 = k
      · simp only [eraseEntry, if_pos h, List.map_cons]
        exact (List.sublist_cons_self k2 (rest.map Prod.fst)).trans
          (List.Sublist.refl _) |>.trans (List.Sublist.refl _)
      · simp only [eraseEntry, if_neg h, List.map_cons]
        exact ih.cons₂ k2

/-- "Chunk id `cid` does not appear in shard `sh`'s small-chunk list". -/
def NotInSmall (small : List (ShardId × List ChunkId)) (sh : ShardId)
    (cid : ChunkId) : Prop :=
  ∀ l, alookup sh small = some l → cid ∉ l

theorem notInSmall_updateEntry {small : List (ShardId × List ChunkId)}
    {sh : ShardId} {cid : ChunkId} (sh2 : ShardId) (f : List ChunkId → List ChunkId)
    (h : NotInSmall small sh cid)
    (hf : ∀ l, alookup sh2 small = some l → cid ∉ l → cid ∉ f l) :
    NotInSmall (updateEntry sh2 f small) sh cid := by
  intro l2 hl2
  by_cases he : sh2 = sh
  · subst he
    rw [alookup_updateEntry_self] at hl2
    cases hl : alookup sh2 small with
    | none =>
        rw [hl] at hl2
        exact Option.noConfusion hl2
    | some l0 =>
        rw [hl] at hl2
        have hfl : f l0 = l2 := Option.some.inj hl2
        subst hfl
        exact hf l0 hl (h l0 hl)
  · rw [alookup_updateEntry_ne sh2 sh f small (fun hh => he hh.symm)] at hl2
    exact h l2 hl2

theorem notInSmall_eraseEntry {small : List (ShardId × List ChunkId)}
    {sh : ShardId} {cid : ChunkId} (sh2 : ShardId)
    (hsk : (small.map Prod.fst).Nodup) (h : NotInSmall small sh cid) :
    NotInSmall (eraseEntry sh2 small) sh cid := by
  intro l2 hl2
  by_cases he : sh2 = sh
  · subst he
    rw [alookup_eraseEntry_of_nodup sh2 small hsk] at hl2
    simp at hl2
  · rw [alookup_eraseEntry_ne sh2 sh small (fun hh => he hh.symm)] at hl2
    exact h l2 hl2

theorem removeIteratorFromSmallChunks_collectionChunks
    (st : MoveAndMergeChunksPhaseState) (c : ChunkId) (sh : ShardId) :
    (st.removeIteratorFromSmallChunks c sh).collectionChunks =
      st.collectionChunks := by
  unfold MoveAndMergeChunksPhaseState.removeIteratorFromSmallChunks
  cases alookup sh st.smallChunksByShard with
  | none => rfl
  | some l =>
      dsimp only
      by_cases h : c ∈ l
      · rw [if_pos h]
        by_cases h2 : (l.erase c).isEmpty
        · rw [if_pos h2]
        · rw [if_neg h2]
      · rw [if_neg h]

theorem removeIteratorFromSmallChunks_keys_nodup
    (st : MoveAndMergeChunksPhaseState) (c : ChunkId) (sh : ShardId)
    (hsk : (st.smallChunksByShard.map Prod.fst).Nodup) :
    (((st.removeIteratorFromSmallChunks c sh).smallChunksByShard).map
      Prod.fst).Nodup := by
  unfold MoveAndMergeChunksPhaseState.removeIteratorFromSmallChunks
  cases alookup sh st.smallChunksByShard with
  | none => exact hsk
  | some l =>
      dsimp only
      by_cases h : c ∈ l
      · rw [if_pos h]
        by_cases h2 : (l.erase c).isEmpty
        · rw [if_pos h2]
          exact (eraseEntry_keys_sublist sh st.smallChunksByShard).nodup hsk
        · rw [if_neg h2]
          show ((updateEntry sh _ st.smallChunksByShard).map Prod.fst).Nodup
          rw [updateEntry_keys]
          exact hsk
      · rw [if_neg h]
        exact hsk

/-- Removing an iterator from the small-chunk index establishes its absence
from the given shard's list (when that list has no duplicates). -/
theorem removeIterator_notInSmall (st : MoveAndMergeChunksPhaseState)
    (c : ChunkId) (sh : ShardId)
    (hsk : (st.smallChunksByShard.map Prod.fst).Nodup)
    (hnd : ∀ l, alookup sh st.smallChunksByShard = some l → l.Nodup) :
    NotInSmall (st.removeIteratorFromSmallChunks c sh).smallChunksByShard sh c := by
  unfold MoveAndMergeChunksPhaseState.removeIteratorFromSmallChunks
  cases hl : alookup sh st.smallChunksByShard with
  | none =>
      intro l2 hl2
      rw [hl] at hl2
      exact Option.noConfusion hl2
  | some l =>
      dsimp only
      by_cases h : c ∈ l
      · rw [if_pos h]
        by_cases h2 : (l.erase c).isEmpty
        · rw [if_pos h2]
          show NotInSmall (eraseEntry sh st.smallChunksByShard) sh c
          intro l2 hl2
          rw [alookup_eraseEntry_of_nodup sh st.smallChunksByShard hsk] at hl2
          exact Option.noConfusion hl2
        · rw [if_neg h2]
          show NotInSmall
            (updateEntry sh (fun _ => l.erase c) st.smallChunksByShard) sh c
          intro l2 hl2
          rw [alookup_updateEntry_self, hl] at hl2
          have hfl : l.erase c = l2 := Option.some.inj hl2
          subst hfl
          exact fun hmem => (((hnd l hl).mem_erase_iff).mp hmem).1 rfl
      · rw [if_neg h]
        intro l2 hl2
        rw [hl] at hl2
        cases hl2
        exact h

/-- Removing another iterator preserves absence from a shard's list. -/
theorem removeIterator_preserves_notInSmall (st : MoveAndMergeChunksPhaseState)
    (c2 : ChunkId) (sh2 : ShardId) {sh : ShardId} {cid : ChunkId}
    (hsk : (st.smallChunksByShard.map Prod.fst).Nodup)
    (h : NotInSmall st.smallChunksByShard sh cid) :
    NotInSmall (st.removeIteratorFromSmallChunks c2 sh2).smallChunksByShard sh
      cid := by
  unfold MoveAndMergeChunksPhaseState.removeIteratorFromSmallChunks
  cases hl : alookup sh2 st.smallChunksByShard with
  | none => exact h
  | some l =>
      dsimp only
      by_cases hm : c2 ∈ l
      · rw [if_pos hm]
        by_cases h2 : (l.erase c2).isEmpty
        · rw [if_pos h2]
          show NotInSmall (eraseEntry sh2 st.smallChunksByShard) sh cid
          exact notInSmall_eraseEntry sh2 hsk h
        · rw [if_neg h2]
          show NotInSmall
            (updateEntry sh2 (fun _ => l.erase c2) st.smallChunksByShard) sh cid
          refine notInSmall_updateEntry sh2 _ h ?_
          intro l0 hl0 hnm
          rw [hl] at hl0
          cases hl0
          exact fun hmem => hnm (List.mem_of_mem_erase hmem)
      · rw [if_neg hm]
        exact h

/-! ## C7 — sibling ranking and target selection -/

/-- C7: `_rankMergeableSibling` computes
`(sameShard ? 16 : 0) + (!sameShard ∧ candSize < sibSize ? 8 : 0) +
(candSize + sibSize > smallThreshold ? (sibSize < smallThreshold ? 4 : 2) : 0)`,
and when two distinct siblings survive filtering, `popNextMigration`'s
selection picks the challenger (the second sibling) exactly when its rank is
strictly higher, or equal with a strictly smaller current size of its owner
shard. -/
theorem c7_rank_and_selection :
    (∀ (st : MoveAndMergeChunksPhaseState) (cand sib : ChunkRangeInfo),
      st.rankMergeableSibling cand sib =
        (if cand.shard = sib.shard then 16 else 0) +
          (if cand.shard ≠ sib.shard ∧
              cand.estimatedSizeBytes < sib.estimatedSizeBytes then 8 else 0) +
          (if cand.estimatedSizeBytes + sib.estimatedSizeBytes >
              st.smallChunkSizeThresholdBytes then
            (if sib.estimatedSizeBytes < st.smallChunkSizeThresholdBytes
              then 4 else 2)
          else 0)) ∧
    (∀ (st : MoveAndMergeChunksPhaseState) (cand a b : ChunkId), a ≠ b →
      st.chooseTargetSibling cand [a, b] =
        (if st.rankMergeableSibling (st.chunkAt cand) (st.chunkAt b) >
              st.rankMergeableSibling (st.chunkAt cand) (st.chunkAt a) ∨
            (st.rankMergeableSibling (st.chunkAt cand) (st.chunkAt b) =
                st.rankMergeableSibling (st.chunkAt cand) (st.chunkAt a) ∧
              (st.shardInfoAt (st.chunkAt b).shard).currentSizeBytes <
                (st.shardInfoAt (st.chunkAt a).shard).currentSizeBytes) then b
          else a)) := by
  constructor
  · intro st cand sib
    unfold MoveAndMergeChunksPhaseState.rankMergeableSibling
    split_ifs <;> simp_all
  · intro st cand a b h
    have hgl : ([a, b] : List ChunkId).getLast? = some b := rfl
    unfold MoveAndMergeChunksPhaseState.chooseTargetSibling
    rw [hgl]
    dsimp only [List.headD]
    rw [if_neg h]

/-- A two-chunk move-and-merge state for the C7 witness: the candidate chunk
(id 0) has a left and a right sibling on two different shards. -/
def c7state : MoveAndMergeChunksPhaseState :=
  { uuid := 11
    collectionChunks :=
      [(1, ⟨⟨⟨0, 0⟩, ⟨10, 0⟩⟩, 1, 4, false⟩),
        (0, ⟨⟨⟨10, 0⟩, ⟨20, 0⟩⟩, 0, 5, false⟩),
        (2, ⟨⟨⟨20, 0⟩, ⟨30, 0⟩⟩, 2, 6, false⟩)]
    smallChunksByShard := [(0, [0]), (1, [1]), (2, [2])]
    shardInfos := [(0, ⟨5, 0, false⟩), (1, ⟨4, 0, false⟩), (2, ⟨6, 0, false⟩)]
    shardProcessingOrder := [2, 0, 1]
    outstandingMigrations := []
    actionableMerges := []
    outstandingMerges := []
    zoneOf := fun _ => 0
    smallChunkSizeThresholdBytes := 25
    aborted := false
    nextPhase := .kSplitChunks }

/-- Witness for C7: the selection rule applied to the concrete two-sibling
state `c7state` (candidate chunk 0, siblings 2 and 1). -/
theorem c7_witness :
    (2 : ChunkId) ≠ 1 ∧
      c7state.chooseTargetSibling 0 [2, 1] =
        (if c7state.rankMergeableSibling (c7state.chunkAt 0) (c7state.chunkAt 1) >
              c7state.rankMergeableSibling (c7state.chunkAt 0) (c7state.chunkAt 2) ∨
            (c7state.rankMergeableSibling (c7state.chunkAt 0) (c7state.chunkAt 1) =
                c7state.rankMergeableSibling (c7state.chunkAt 0) (c7state.chunkAt 2) ∧
              (c7state.shardInfoAt (c7state.chunkAt 1).shard).currentSizeBytes <
                (c7state.shardInfoAt (c7state.chunkAt 2).shard).currentSizeBytes)
          then 1 else 2) :=
  ⟨by decide, c7_rank_and_selection.2 c7state 0 2 1 (by decide)⟩

/-! ## C3 — effects of a successful merge acknowledgment -/

theorem mergeOnSuccess_collectionChunks (st1 : MoveAndMergeChunksPhaseState)
    (r : MoveAndMergeRequest) :
    (MoveAndMergeChunksPhaseState.mergeOnSuccess st1 r).collectionChunks =
      eraseEntry r.chunkToMove
        (updateEntry r.chunkToMergeWith
          (MoveAndMergeChunksPhaseState.mergeChunkUpdate st1 r)
          st1.collectionChunks) := by
  unfold MoveAndMergeChunksPhaseState.mergeOnSuccess
  dsimp only
  split
  · rw [removeIteratorFromSmallChunks_collectionChunks,
      removeIteratorFromSmallChunks_collectionChunks]
    rfl
  · rw [show ∀ (a : MoveAndMergeChunksPhaseState) (b), ({ a with
        smallChunksByShard := b } :
          MoveAndMergeChunksPhaseState).collectionChunks = a.collectionChunks
      from fun a b => rfl]
    rw [removeIteratorFromSmallChunks_collectionChunks]
    rfl

theorem mergeOnSuccess_notInSmall (st1 : MoveAndMergeChunksPhaseState)
    (r : MoveAndMergeRequest) (dSh : ShardId)
    (hsk1 : (st1.smallChunksByShard.map Prod.fst).Nodup)
    (hsnd1 : ∀ l, alookup dSh st1.smallChunksByShard = some l → l.Nodup)
    (hdSh : dSh =
      ((st1.updateChunk r.chunkToMergeWith
          (MoveAndMergeChunksPhaseState.mergeChunkUpdate st1 r)).chunkAt
        r.chunkToMove).shard) :
    NotInSmall (MoveAndMergeChunksPhaseState.mergeOnSuccess st1 r).smallChunksByShard
      dSh r.chunkToMove := by
  unfold MoveAndMergeChunksPhaseState.mergeOnSuccess
  dsimp only
  rw [← hdSh]
  have hbase :
      NotInSmall
        ((MoveAndMergeChunksPhaseState.removeIteratorFromSmallChunks
            { st1.updateChunk r.chunkToMergeWith
                (MoveAndMergeChunksPhaseState.mergeChunkUpdate st1 r) with
              collectionChunks :=
                eraseEntry r.chunkToMove
                  (st1.updateChunk r.chunkToMergeWith
                      (MoveAndMergeChunksPhaseState.mergeChunkUpdate st1
                        r)).collectionChunks }
            r.chunkToMove dSh)).smallChunksByShard dSh r.chunkToMove :=
    removeIterator_notInSmall _ r.chunkToMove dSh hsk1 hsnd1
  split
  · exact removeIterator_preserves_notInSmall _ _ _
      (removeIteratorFromSmallChunks_keys_nodup _ _ _ hsk1) hbase
  · refine notInSmall_updateEntry _ _ hbase ?_
    intro l0 _ hnm hmem
    exact hnm (((sortByBool_perm _ l0).mem_iff).mp hmem)

/-- C3: for a successful merge acknowledgment in the move-and-merge phase
(matched request `r`, constituent chunks `cm` = chunk to move and `cw` =
chunk to merge with, adjacent as recorded by the request's left-sibling
flag), the surviving chunk ends with the union range (smaller min to larger
max), the summed `estimatedSizeBytes`, and a cleared busy flag, while the
moved chunk is deleted from the chunk sequence and is absent from the
small-chunk index of its shard. -/
theorem c3_merge_success_updates (st : MoveAndMergeChunksPhaseState)
    (act : MergeInfo) (r : MoveAndMergeRequest) (cm cw : ChunkRangeInfo)
    (h : st.aborted = false)
    (hfind : st.findOutstandingMerge act.chunkRange = some r)
    (hcm : alookup r.chunkToMove st.collectionChunks = some cm)
    (hcw : alookup r.chunkToMergeWith st.collectionChunks = some cw)
    (hne : r.chunkToMove ≠ r.chunkToMergeWith)
    (hkeys : (st.collectionChunks.map Prod.fst).Nodup)
    (hsk : (st.smallChunksByShard.map Prod.fst).Nodup)
    (hsnd : ∀ l, alookup cm.shard st.smallChunksByShard = some l → l.Nodup)
    (hadj : if r.isChunkToMergeLeftSibling then
        cw.range.getMax.val = cm.range.getMin.val
      else cm.range.getMax.val = cw.range.getMin.val)
    (hwfm : cm.range.getMin.val < cm.range.getMax.val)
    (hwfw : cw.range.getMin.val < cw.range.getMax.val) :
    ∃ st2, st.applyMergeResult act .ok = some st2 ∧
      (∃ c2, alookup r.chunkToMergeWith st2.collectionChunks = some c2 ∧
        c2.range.getMin.val = min cm.range.getMin.val cw.range.getMin.val ∧
        c2.range.getMax.val = max cm.range.getMax.val cw.range.getMax.val ∧
        c2.estimatedSizeBytes = cw.estimatedSizeBytes + cm.estimatedSizeBytes ∧
        c2.busyInOperation = false ∧ c2.shard = cw.shard) ∧
      alookup r.chunkToMove st2.collectionChunks = none ∧
      NotInSmall st2.smallChunksByShard cm.shard r.chunkToMove := by
  have happ : st.applyMergeResult act .ok =
      some (MoveAndMergeChunksPhaseState.mergeOnSuccess
        { st with
          outstandingMerges := st.outstandingMerges.eraseP fun request =>
            act.chunkRange.containsKey
              (st.chunkAt request.chunkToMove).range.getMin } r) := by
    unfold MoveAndMergeChunksPhaseState.applyMergeResult
    rw [hfind]
    dsimp only
    rw [if_neg (by simp [h])]
    rfl
  set st1 : MoveAndMergeChunksPhaseState :=
    { st with
      outstandingMerges := st.outstandingMerges.eraseP fun request =>
        act.chunkRange.containsKey (st.chunkAt request.chunkToMove).range.getMin }
    with hst1
  have h1chunks : st1.collectionChunks = st.collectionChunks := rfl
  have h1small : st1.smallChunksByShard = st.smallChunksByShard := rfl
  have hchAtM : st1.chunkAt r.chunkToMove = cm := by
    unfold MoveAndMergeChunksPhaseState.chunkAt
    rw [h1chunks, hcm]
    rfl
  have hchAtW : st1.chunkAt r.chunkToMergeWith = cw := by
    unfold MoveAndMergeChunksPhaseState.chunkAt
    rw [h1chunks, hcw]
    rfl
  have hrange :
      (st1.asMergedRange r).getMin.val =
          min cm.range.getMin.val cw.range.getMin.val ∧
        (st1.asMergedRange r).getMax.val =
          max cm.range.getMax.val cw.range.getMax.val := by
    unfold MoveAndMergeChunksPhaseState.asMergedRange
    rw [hchAtM, hchAtW]
    cases hflag : r.isChunkToMergeLeftSibling with
    | true =>
        rw [hflag] at hadj
        rw [if_pos rfl] at hadj
        rw [if_pos rfl]
        constructor
        · dsimp only
          rw [min_eq_right (by omega : cw.range.getMin.val ≤ cm.range.getMin.val)]
        · dsimp only
          rw [max_eq_left (by omega : cw.range.getMax.val ≤ cm.range.getMax.val)]
    | false =>
        rw [hflag] at hadj
        rw [if_neg Bool.false_ne_true] at hadj
        rw [if_neg Bool.false_ne_true]
        constructor
        · dsimp only
          rw [min_eq_left (by omega : cm.range.getMin.val ≤ cw.range.getMin.val)]
        · dsimp only
          rw [max_eq_right (by omega : cm.range.getMax.val ≤ cw.range.getMax.val)]
  refine ⟨_, happ, ?_, ?_, ?_⟩
  · -- the surviving chunk
    refine ⟨MoveAndMergeChunksPhaseState.mergeChunkUpdate st1 r cw, ?_,
      hrange.1, hrange.2, ?_, rfl, rfl⟩
    · rw [mergeOnSuccess_collectionChunks,
        alookup_eraseEntry_ne r.chunkToMove r.chunkToMergeWith _
          (fun hh => hne hh.symm),
        alookup_updateEntry_self, h1chunks, hcw]
      rfl
    · show cw.estimatedSizeBytes + (st1.chunkAt r.chunkToMove).estimatedSizeBytes =
        cw.estimatedSizeBytes + cm.estimatedSizeBytes
      rw [hchAtM]
  · -- the moved chunk is deleted from the chunk sequence
    rw [mergeOnSuccess_collectionChunks]
    apply alookup_eraseEntry_of_nodup
    rw [updateEntry_keys, h1chunks]
    exact hkeys
  · -- ... and absent from the small-chunk index of its shard
    refine mergeOnSuccess_notInSmall st1 r cm.shard (h1small ▸ hsk)
      (fun l hl => hsnd l (h1small ▸ hl)) ?_
    unfold MoveAndMergeChunksPhaseState.chunkAt
    show cm.shard = ((alookup r.chunkToMove
      (updateEntry r.chunkToMergeWith _ st1.collectionChunks)).getD default).shard
    rw [alookup_updateEntry_ne r.chunkToMergeWith r.chunkToMove _ _ hne,
      h1chunks, hcm]
    rfl

/-- Chunk to move in the C3 witness scenario: `[0,10)` on shard 0, size 5. -/
def c3cm : ChunkRangeInfo := ⟨⟨⟨0, 0⟩, ⟨10, 0⟩⟩, 0, 5, true⟩

/-- Chunk to merge with in the C3 witness scenario: `[10,20)` on shard 1,
size 7. -/
def c3cw : ChunkRangeInfo := ⟨⟨⟨10, 0⟩, ⟨20, 0⟩⟩, 1, 7, true⟩

/-- The outstanding request of the C3 witness scenario (chunk 1 migrated next
to chunk 2; the merge-with chunk is the right sibling). -/
def c3req : MoveAndMergeRequest := ⟨1, 2, false⟩

/-- Phase state of the C3 witness scenario: the migration of chunk 1 has been
acknowledged and its merge is outstanding. -/
def c3state : MoveAndMergeChunksPhaseState :=
  { uuid := 11
    collectionChunks := [(1, c3cm), (2, c3cw)]
    smallChunksByShard := [(0, [1]), (1, [2])]
    shardInfos := [(0, ⟨5, 0, false⟩), (1, ⟨7, 0, false⟩)]
    shardProcessingOrder := [1, 0]
    outstandingMigrations := []
    actionableMerges := []
    outstandingMerges := [c3req]
    zoneOf := fun _ => 0
    smallChunkSizeThresholdBytes := 25
    aborted := false
    nextPhase := .kSplitChunks }

/-- The acknowledged merge action of the C3 witness scenario. -/
def c3act : MergeInfo := ⟨1, 11, 0, ⟨⟨0, 0⟩, ⟨20, 0⟩⟩⟩

/-! ## C8 — migration destinations and `canReceiveNewChunks` -/

theorem alookup_updateEntry_cases {α : Type} (k k2 : Nat) (f : α → α)
    (m : List (Nat × α)) :
    alookup k2 (updateEntry k f m) =
      if k2 = k then (alookup k m).map f else alookup k2 m := by
  by_cases h : k2 = k
  · subst h
    rw [if_pos rfl, alookup_updateEntry_self]
  · rw [if_neg h, alookup_updateEntry_ne k k2 f m h]

/-- `updateChunk` with a shard-preserving mutation leaves every chunk's
`shard` field (as seen through `chunkAt`) unchanged. -/
theorem chunkAt_updateChunk_shard (st : MoveAndMergeChunksPhaseState)
    (c : ChunkId) (f : ChunkRangeInfo → ChunkRangeInfo)
    (hf : ∀ ci, (f ci).shard = ci.shard) (x : ChunkId) :
    ((st.updateChunk c f).chunkAt x).shard = (st.chunkAt x).shard := by
  unfold MoveAndMergeChunksPhaseState.chunkAt
    MoveAndMergeChunksPhaseState.updateChunk
  dsimp only
  rw [alookup_updateEntry_cases]
  by_cases h : x = c
  · rw [if_pos h]
    subst h
    cases alookup x st.collectionChunks with
    | none => rfl
    | some ci => exact hf ci
  · rw [if_neg h]

theorem mem_getChunkSiblings_canBeMoveAndMerged
    (st : MoveAndMergeChunksPhaseState) (cand s : ChunkId)
    (hs : s ∈ st.getChunkSiblings cand) :
    st.canBeMoveAndMerged cand s = true := by
  unfold MoveAndMergeChunksPhaseState.getChunkSiblings at hs
  dsimp only at hs
  rw [List.mem_append] at hs
  rcases hs with hs | hs
  · cases hr : MoveAndMergeChunksPhaseState.rightSiblingOf cand st.collectionChunks with
    | none => rw [hr] at hs; simp at hs
    | some rightSibling =>
        rw [hr] at hs
        dsimp only at hs
        by_cases hc : st.canBeMoveAndMerged cand rightSibling
        · rw [if_pos hc] at hs
          have hss := List.mem_singleton.mp hs
          subst hss
          exact hc
        · rw [if_neg hc] at hs
          simp at hs
  · cases hr : MoveAndMergeChunksPhaseState.leftSiblingOf cand st.collectionChunks with
    | none => rw [hr] at hs; simp at hs
    | some leftSibling =>
        rw [hr] at hs
        dsimp only at hs
        by_cases hc : st.canBeMoveAndMerged cand leftSibling
        · rw [if_pos hc] at hs
          have hss := List.mem_singleton.mp hs
          subst hss
          exact hc
        · rw [if_neg hc] at hs
          simp at hs

/-- A successful candidate scan returns the candidate's siblings filtered by
the busy/used-shard predicate (and the filtered list is non-empty). -/
theorem findCandidateAux_some_spec (st : MoveAndMergeChunksPhaseState)
    (used : List ShardId) :
    ∀ (l : List ChunkId) {cand : ChunkId} {sibs l2 : List ChunkId},
      st.findCandidateAux used l = (some (cand, sibs), l2) →
      sibs = (st.getChunkSiblings cand).filter (fun sibling =>
        !(st.chunkAt sibling).busyInOperation &&
          !(used.contains (st.chunkAt sibling).shard)) ∧ sibs ≠ [] := by
  intro l
  induction l with
  | nil => intro cand sibs l2 h; exact Option.noConfusion (congrArg Prod.fst h)
  | cons candidate rest ih =>
      intro cand sibs l2 h
      unfold MoveAndMergeChunksPhaseState.findCandidateAux at h
      by_cases hb : (st.chunkAt candidate).busyInOperation
      · rw [if_pos hb] at h
        dsimp only at h
        cases hr : st.findCandidateAux used rest with
        | mk r rest2 =>
            rw [hr] at h
            cases h
            exact ih hr
      · rw [if_neg hb] at h
        by_cases he : (st.getChunkSiblings candidate).isEmpty
        · rw [if_pos he] at h
          exact ih h
        · rw [if_neg he] at h
          dsimp only at h
          by_cases hf : ((st.getChunkSiblings candidate).filter (fun sibling =>
              !(st.chunkAt sibling).busyInOperation &&
                !(used.contains (st.chunkAt sibling).shard))).isEmpty
          · rw [if_pos hf] at h
            cases hr : st.findCandidateAux used rest with
            | mk r rest2 =>
                rw [hr] at h
                cases h
                exact ih hr
          · rw [if_neg hf] at h
            cases h
            exact ⟨rfl, by
              intro hnil
              rw [hnil] at hf
              exact hf rfl⟩

/-- `_findNextSmallChunkInShard` only mutates `_smallChunksByShard`. -/
theorem findNext_state_shape (st : MoveAndMergeChunksPhaseState)
    (sh : ShardId) (used : List ShardId) :
    ∃ small2, (st.findNextSmallChunkInShard sh used).2 =
      { st with smallChunksByShard := small2 } := by
  unfold MoveAndMergeChunksPhaseState.findNextSmallChunkInShard
  cases alookup sh st.smallChunksByShard with
  | none => exact ⟨st.smallChunksByShard, rfl⟩
  | some l =>
      dsimp only
      cases st.findCandidateAux used l with
      | mk r newList =>
          cases r with
          | none =>
              dsimp only
              by_cases he : newList.isEmpty
              · rw [if_pos he]
                exact ⟨_, rfl⟩
              · rw [if_neg he]
                exact ⟨_, rfl⟩
          | some found => exact ⟨_, rfl⟩

/-- A successful `_findNextSmallChunkInShard` returns the candidate's
filtered sibling list (non-empty). -/
theorem findNext_some_spec (st : MoveAndMergeChunksPhaseState)
    (sh : ShardId) (used : List ShardId) {cand : ChunkId} {sibs : List ChunkId}
    {st1 : MoveAndMergeChunksPhaseState}
    (h : st.findNextSmallChunkInShard sh used = (some (cand, sibs), st1)) :
    sibs = (st.getChunkSiblings cand).filter (fun sibling =>
      !(st.chunkAt sibling).busyInOperation &&
        !(used.contains (st.chunkAt sibling).shard)) ∧ sibs ≠ [] := by
  unfold MoveAndMergeChunksPhaseState.findNextSmallChunkInShard at h
  cases hl : alookup sh st.smallChunksByShard with
  | none => rw [hl] at h; exact Option.noConfusion (congrArg Prod.fst h)
  | some l =>
      rw [hl] at h
      dsimp only at h
      cases hr : st.findCandidateAux used l with
      | mk r newList =>
          rw [hr] at h
          cases r with
          | none =>
              dsimp only at h
              by_cases he : newList.isEmpty
              · rw [if_pos he] at h
                exact Option.noConfusion (congrArg Prod.fst h)
              · rw [if_neg he] at h
                exact Option.noConfusion (congrArg Prod.fst h)
          | some found =>
              dsimp only at h
              have h1 : some found = some (cand, sibs) := congrArg Prod.fst h
              cases h1
              exact findCandidateAux_some_spec st used l hr

/-- The chosen target sibling is one of the candidate siblings. -/
theorem chooseTargetSibling_mem (st : MoveAndMergeChunksPhaseState)
    (cand : ChunkId) (sibs : List ChunkId) (h : sibs ≠ []) :
    st.chooseTargetSibling cand sibs ∈ sibs := by
  unfold MoveAndMergeChunksPhaseState.chooseTargetSibling
  cases hgl : sibs.getLast? with
  | none => exact absurd (List.getLast?_eq_none_iff.mp hgl) h
  | some challenger =>
      dsimp only
      have hch : challenger ∈ sibs := by
        cases sibs with
        | nil => exact absurd rfl h
        | cons a t =>
            have := List.getLast?_eq_getLast (a :: t) (by simp)
            rw [this] at hgl
            cases hgl
            exact List.getLast_mem (by simp)
      have hhd : sibs.headD 0 ∈ sibs := by
        cases sibs with
        | nil => exact absurd rfl h
        | cons a t => exact List.mem_cons_self a t
      by_cases he : sibs.headD 0 = challenger
      · rw [if_pos he]
        exact hhd
      · rw [if_neg he]
        split
        · exact hch
        · exact hhd

/-- Core of C8: a migration produced by `popNextMigration` whose destination
differs from its source always targets a shard that passed
`canReceiveNewChunks` at sibling-selection time. -/
theorem popNextMigrationAux_dest_spec (env : ShardId → Nat) :
    ∀ (shards : List ShardId) (st : MoveAndMergeChunksPhaseState)
      (used : List ShardId) {mi : MigrateInfo}
      {st2 : MoveAndMergeChunksPhaseState} {used2 : List ShardId},
      MoveAndMergeChunksPhaseState.popNextMigrationAux env st used shards =
        (some mi, st2, used2) →
      mi.destShard ≠ mi.sourceShard →
      (st.shardInfoAt mi.destShard).canReceiveNewChunks = true := by
  intro shards
  induction shards with
  | nil =>
      intro st used mi st2 used2 h _
      exact Option.noConfusion (congrArg Prod.fst h)
  | cons shardId restShards ih =>
      intro st used mi st2 used2 h hne
      unfold MoveAndMergeChunksPhaseState.popNextMigrationAux at h
      by_cases hu : used.contains shardId
      · rw [if_pos hu] at h
        exact ih st used h hne
      · rw [if_neg hu] at h
        cases hfn : st.findNextSmallChunkInShard shardId used with
        | mk r st1 =>
            rw [hfn] at h
            obtain ⟨small2, hshape⟩ := findNext_state_shape st shardId used
            rw [hfn] at hshape
            dsimp only at hshape
            cases r with
            | none =>
                dsimp only at h
                have hres := ih st1 used h hne
                rw [hshape] at hres
                exact hres
            | some found =>
                obtain ⟨cand, sibs⟩ := found
                dsimp only at h
                obtain ⟨hsibs, hsne⟩ := findNext_some_spec st shardId used hfn
                set tgt := st1.chooseTargetSibling cand sibs with htgt
                have hmem : tgt ∈ sibs := chooseTargetSibling_mem st1 cand sibs hsne
                rw [hsibs] at hmem
                have htmem : tgt ∈ st.getChunkSiblings cand :=
                  (List.mem_filter.mp hmem).1
                have hcb := mem_getChunkSiblings_canBeMoveAndMerged st cand tgt htmem
                have hmi : mi =
                    ((st1.updateChunk cand fun c =>
                          { c with busyInOperation := true }).updateChunk tgt
                        fun c => { c with busyInOperation := true }).asMigrateInfo
                      (((st1.updateChunk cand fun c =>
                          { c with busyInOperation := true }).updateChunk tgt
                        fun c => { c with busyInOperation := true }).makeRequest cand
                          tgt)
                      (env ((((st1.updateChunk cand fun c =>
                          { c with busyInOperation := true }).updateChunk tgt
                        fun c => { c with busyInOperation := true })).chunkAt
                          cand).shard) :=
                  (Option.some.inj (congrArg Prod.fst h)).symm
                have hshard : ∀ x : ChunkId,
                    (((st1.updateChunk cand fun c =>
                          { c with busyInOperation := true }).updateChunk tgt
                        fun c => { c with busyInOperation := true }).chunkAt x).shard =
                      (st.chunkAt x).shard := by
                  intro x
                  rw [chunkAt_updateChunk_shard
                      (st1.updateChunk cand fun c => { c with busyInOperation := true })
                      tgt (fun c => { c with busyInOperation := true })
                      (fun ci => rfl) x,
                    chunkAt_updateChunk_shard st1 cand
                      (fun c => { c with busyInOperation := true })
                      (fun ci => rfl) x,
                    hshape]
                  rfl
                have hdest : mi.destShard =
                    (((st1.updateChunk cand fun c =>
                          { c with busyInOperation := true }).updateChunk tgt
                        fun c => { c with busyInOperation := true }).chunkAt
                      tgt).shard := by
                  rw [hmi]
                  rfl
                have hsrc : mi.sourceShard =
                    (((st1.updateChunk cand fun c =>
                          { c with busyInOperation := true }).updateChunk tgt
                        fun c => { c with busyInOperation := true }).chunkAt
                      cand).shard := by
                  rw [hmi]
                  rfl
                rw [hdest, hshard tgt]
                unfold MoveAndMergeChunksPhaseState.canBeMoveAndMerged at hcb
                rw [Bool.and_eq_true, Bool.or_eq_true] at hcb
                rcases hcb.2 with hsame | hrecv
                · exfalso
                  apply hne
                  rw [hdest, hsrc, hshard tgt, hshard cand]
                  exact (of_decide_eq_true hsame).symm
                · exact hrecv

/-- C8 counterexample state: a single draining shard 3 owning two adjacent
small chunks in the same zone. -/
def c8state : MoveAndMergeChunksPhaseState :=
  { uuid := 13
    collectionChunks :=
      [(1, ⟨⟨⟨0, 0⟩, ⟨10, 0⟩⟩, 3, 1, false⟩), (2, ⟨⟨⟨10, 0⟩, ⟨20, 0⟩⟩, 3, 1, false⟩)]
    smallChunksByShard := [(3, [1, 2])]
    shardInfos := [(3, ⟨2, 0, true⟩)]
    shardProcessingOrder := [3]
    outstandingMigrations := []
    actionableMerges := []
    outstandingMerges := []
    zoneOf := fun _ => 0
    smallChunkSizeThresholdBytes := 25
    aborted := false
    nextPhase := .kSplitChunks }

/-- C8 counterexample: `popNextMigration` on `c8state` returns a migration
whose destination shard 3 is draining (its two chunks live on the same
draining shard, and the same-shard case of `canBeMoveAndMerged` never
consults `canReceiveNewChunks`). -/
theorem c8_counterexample_draining_destination :
    ((c8state.popNextMigration (fun _ => 0) []).1.map MigrateInfo.destShard =
        some 3) ∧
      (c8state.shardInfoAt 3).draining = true := by
  decide

/-- C8 (amended): a migration returned by `popNextMigration` may target a
draining shard only in the degenerate same-shard case (candidate and sibling
on one shard); whenever the destination differs from the source, the
destination shard passed `canReceiveNewChunks`, hence is not draining, where
`canReceiveNewChunks = !draining && (maxSizeBytes == 0 || currentSizeBytes <
maxSizeBytes)` exactly as the claim's derived predicate states. -/
theorem c8_cross_shard_destination_not_draining (env : ShardId → Nat)
    (st : MoveAndMergeChunksPhaseState) (used : List ShardId)
    (mi : MigrateInfo) (st2 : MoveAndMergeChunksPhaseState)
    (used2 : List ShardId)
    (h : st.popNextMigration env used = (some mi, st2, used2))
    (hne : mi.destShard ≠ mi.sourceShard) :
    (st.shardInfoAt mi.destShard).canReceiveNewChunks = true ∧
      (st.shardInfoAt mi.destShard).draining = false ∧
      (∀ info : ShardInfo, info.canReceiveNewChunks =
        (!info.draining && (decide (info.maxSizeBytes = 0) ||
          decide (info.currentSizeBytes < info.maxSizeBytes)))) := by
  have hrecv := popNextMigrationAux_dest_spec env st.shardProcessingOrder st used
    h hne
  refine ⟨hrecv, ?_, ?_⟩
  · unfold ShardInfo.canReceiveNewChunks at hrecv
    by_cases hd : (st.shardInfoAt mi.destShard).draining
    · rw [if_pos hd] at hrecv
      exact absurd hrecv (by simp)
    · exact Bool.of_not_eq_true hd
  · intro info
    unfold ShardInfo.canReceiveNewChunks
    by_cases hd : info.draining
    · rw [if_pos hd, hd]
      rfl
    · rw [if_neg hd, Bool.of_not_eq_true hd]
      rfl

/-- C8 witness state: a small chunk on shard 1 whose left sibling lives on
shard 0 (cross-shard move-and-merge). -/
def c8wstate : MoveAndMergeChunksPhaseState :=
  { uuid := 17
    collectionChunks :=
      [(1, ⟨⟨⟨0, 0⟩, ⟨10, 0⟩⟩, 0, 5, false⟩), (2, ⟨⟨⟨10, 0⟩, ⟨20, 0⟩⟩, 1, 5, false⟩)]
    smallChunksByShard := [(0, [1]), (1, [2])]
    shardInfos := [(0, ⟨5, 0, false⟩), (1, ⟨85, 0, false⟩)]
    shardProcessingOrder := [1, 0]
    outstandingMigrations := []
    actionableMerges := []
    outstandingMerges := []
    zoneOf := fun _ => 0
    smallChunkSizeThresholdBytes := 25
    aborted := false
    nextPhase := .kSplitChunks }

/-- The migration `popNextMigration` produces on `c8wstate`. -/
def c8wmi : MigrateInfo := ⟨0, 17, 1, ⟨10, 0⟩, ⟨20, 0⟩, 0⟩

/-- Witness for C8: the amended theorem applied to the concrete cross-shard
scenario of `c8wstate` (chunk `[10,20)` migrates from shard 1 to shard 0,
which can receive chunks and is not draining). -/
theorem c8_witness :
    c8wmi.destShard ≠ c8wmi.sourceShard ∧
      (c8wstate.shardInfoAt c8wmi.destShard).canReceiveNewChunks = true ∧
      (c8wstate.shardInfoAt c8wmi.destShard).draining = false :=
  ⟨by decide,
    (c8_cross_shard_destination_not_draining (fun _ => 0) c8wstate [] c8wmi
      (c8wstate.popNextMigration (fun _ => 0) []).2.1
      (c8wstate.popNextMigration (fun _ => 0) []).2.2 rfl (by decide)).1,
    (c8_cross_shard_destination_not_draining (fun _ => 0) c8wstate [] c8wmi
      (c8wstate.popNextMigration (fun _ => 0) []).2.1
      (c8wstate.popNextMigration (fun _ => 0) []).2.2 rfl (by decide)).2.1⟩

/-! ## C1 — a merge is only emitted after its migration succeeded

The move-and-merge phase is instrumented with a labelled step relation: each
constructor is one engine-visible operation on the phase (creating a
migration, acknowledging a migration or merge result, serving a streamable
action), with the transition computed by the functions above.  The label of
an acknowledgment records the matched request. -/

/-- Observable events of the move-and-merge phase. -/
inductive MMEvent where
  | emitMigration (mi : MigrateInfo)
  | emitMerge (r : MoveAndMergeRequest) (a : DefragmentationAction)
  | ackMigration (r : MoveAndMergeRequest) (resp : MStatus)
  | ackMerge (r : MoveAndMergeRequest) (resp : MStatus)
  | internalStep
deriving DecidableEq, Repr

/-- Labelled transitions of the move-and-merge phase. -/
inductive MMStep (env : ShardId → Nat) :
    MoveAndMergeChunksPhaseState → MMEvent → MoveAndMergeChunksPhaseState →
      Prop where
  | popMigration {st st2 : MoveAndMergeChunksPhaseState}
      {used used2 : List ShardId} {mi : MigrateInfo}
      (h : st.popNextMigration env used = (some mi, st2, used2)) :
      MMStep env st (.emitMigration mi) st2
  | popMigrationNone {st st2 : MoveAndMergeChunksPhaseState}
      {used used2 : List ShardId}
      (h : st.popNextMigration env used = (none, st2, used2)) :
      MMStep env st .internalStep st2
  | popStreamable {st st2 : MoveAndMergeChunksPhaseState}
      {r : MoveAndMergeRequest} {rest : List MoveAndMergeRequest}
      {a : DefragmentationAction}
      (h1 : st.actionableMerges = r :: rest)
      (h2 : st.popNextStreamableAction env = (some a, st2)) :
      MMStep env st (.emitMerge r a) st2
  | popStreamableNone {st st2 : MoveAndMergeChunksPhaseState}
      (h : st.popNextStreamableAction env = (none, st2)) :
      MMStep env st .internalStep st2
  | ackMigration {st st2 : MoveAndMergeChunksPhaseState} {act : MigrateInfo}
      {resp : MStatus} {r : MoveAndMergeRequest}
      (h1 : st.findOutstandingMigration act.minKey = some r)
      (h2 : st.applyActionResult (.migrateA act) (.statusR resp) = some st2) :
      MMStep env st (.ackMigration r resp) st2
  | ackMerge {st st2 : MoveAndMergeChunksPhaseState} {act : MergeInfo}
      {resp : MStatus} {r : MoveAndMergeRequest}
      (h1 : st.findOutstandingMerge act.chunkRange = some r)
      (h2 : st.applyActionResult (.mergeA act) (.statusR resp) = some st2) :
      MMStep env st (.ackMerge r resp) st2

/-- Reachability with an accumulated event trace. -/
inductive MMReach (env : ShardId → Nat)
    (init : MoveAndMergeChunksPhaseState) :
    MoveAndMergeChunksPhaseState → List MMEvent → Prop where
  | refl : MMReach env init init []
  | step {st : MoveAndMergeChunksPhaseState} {tr : List MMEvent} {e : MMEvent}
      {st2 : MoveAndMergeChunksPhaseState} :
      MMReach env init st tr → MMStep env st e st2 →
      MMReach env init st2 (tr ++ [e])

/-- `_removeIteratorFromSmallChunks` only mutates `_smallChunksByShard`. -/
theorem removeIterator_state_shape (st : MoveAndMergeChunksPhaseState)
    (c : ChunkId) (sh : ShardId) :
    ∃ small2, st.removeIteratorFromSmallChunks c sh =
      { st with smallChunksByShard := small2 } := by
  unfold MoveAndMergeChunksPhaseState.removeIteratorFromSmallChunks
  cases alookup sh st.smallChunksByShard with
  | none => exact ⟨st.smallChunksByShard, rfl⟩
  | some l =>
      dsimp only
      by_cases h : c ∈ l
      · rw [if_pos h]
        by_cases h2 : (l.erase c).isEmpty
        · rw [if_pos h2]
          exact ⟨_, rfl⟩
        · rw [if_neg h2]
          exact ⟨_, rfl⟩
      · rw [if_neg h]
        exact ⟨st.smallChunksByShard, rfl⟩

theorem removeIterator_actionableMerges (st : MoveAndMergeChunksPhaseState)
    (c : ChunkId) (sh : ShardId) :
    (st.removeIteratorFromSmallChunks c sh).actionableMerges =
      st.actionableMerges := by
  obtain ⟨s2, hs⟩ := removeIterator_state_shape st c sh
  rw [hs]

theorem removeIterator_outstandingMerges (st : MoveAndMergeChunksPhaseState)
    (c : ChunkId) (sh : ShardId) :
    (st.removeIteratorFromSmallChunks c sh).outstandingMerges =
      st.outstandingMerges := by
  obtain ⟨s2, hs⟩ := removeIterator_state_shape st c sh
  rw [hs]

/-- `mergeOnSuccess` leaves both merge queues unchanged. -/
theorem mergeOnSuccess_queues (st1 : MoveAndMergeChunksPhaseState)
    (r : MoveAndMergeRequest) :
    (MoveAndMergeChunksPhaseState.mergeOnSuccess st1 r).actionableMerges =
        st1.actionableMerges ∧
      (MoveAndMergeChunksPhaseState.mergeOnSuccess st1 r).outstandingMerges =
        st1.outstandingMerges := by
  unfold MoveAndMergeChunksPhaseState.mergeOnSuccess
  dsimp only
  split
  · constructor
    · rw [removeIterator_actionableMerges, removeIterator_actionableMerges]
      rfl
    · rw [removeIterator_outstandingMerges, removeIterator_outstandingMerges]
      rfl
  · constructor
    · show (MoveAndMergeChunksPhaseState.removeIteratorFromSmallChunks _ _
          _).actionableMerges = _
      rw [removeIterator_actionableMerges]
      rfl
    · show (MoveAndMergeChunksPhaseState.removeIteratorFromSmallChunks _ _
          _).outstandingMerges = _
      rw [removeIterator_outstandingMerges]
      rfl

/-- `migrationOnSuccess` appends the acknowledged request to
`_actionableMerges` and leaves `_outstandingMerges` unchanged. -/
theorem migrationOnSuccess_queues (st1 : MoveAndMergeChunksPhaseState)
    (r : MoveAndMergeRequest) :
    (MoveAndMergeChunksPhaseState.migrationOnSuccess st1 r).actionableMerges =
        st1.actionableMerges ++ [r] ∧
      (MoveAndMergeChunksPhaseState.migrationOnSuccess st1 r).outstandingMerges =
        st1.outstandingMerges :=
  ⟨rfl, rfl⟩

/-- `popNextMigration` leaves both merge queues unchanged. -/
theorem popNextMigrationAux_queues (env : ShardId → Nat) :
    ∀ (shards : List ShardId) (st : MoveAndMergeChunksPhaseState)
      (used : List ShardId),
      ((MoveAndMergeChunksPhaseState.popNextMigrationAux env st used
            shards).2.1.actionableMerges = st.actionableMerges) ∧
        ((MoveAndMergeChunksPhaseState.popNextMigrationAux env st used
            shards).2.1.outstandingMerges = st.outstandingMerges) := by
  intro shards
  induction shards with
  | nil => intro st used; exact ⟨rfl, rfl⟩
  | cons shardId restShards ih =>
      intro st used
      unfold MoveAndMergeChunksPhaseState.popNextMigrationAux
      by_cases hu : used.contains shardId
      · rw [if_pos hu]
        exact ih st used
      · rw [if_neg hu]
        cases hfn : st.findNextSmallChunkInShard shardId used with
        | mk r st1 =>
            obtain ⟨small2, hshape⟩ := findNext_state_shape st shardId used
            rw [hfn] at hshape
            dsimp only at hshape
            cases r with
            | none =>
                dsimp only
                have hih := ih st1 used
                have ha : st1.actionableMerges = st.actionableMerges :=
                  (congrArg MoveAndMergeChunksPhaseState.actionableMerges
                    hshape).trans rfl
                have hb : st1.outstandingMerges = st.outstandingMerges :=
                  (congrArg MoveAndMergeChunksPhaseState.outstandingMerges
                    hshape).trans rfl
                exact ⟨hih.1.trans ha, hih.2.trans hb⟩
            | some found =>
                obtain ⟨cand, sibs⟩ := found
                dsimp only
                constructor
                · show st1.actionableMerges = st.actionableMerges
                  exact (congrArg MoveAndMergeChunksPhaseState.actionableMerges
                    hshape).trans rfl
                · show st1.outstandingMerges = st.outstandingMerges
                  exact (congrArg MoveAndMergeChunksPhaseState.outstandingMerges
                    hshape).trans rfl

/-- Detailed effect of a migration acknowledgment on the merge queues:
`_outstandingMerges` is untouched, and a request enters `_actionableMerges`
only as the matched request of a successful response. -/
theorem applyMigrationResult_queues (st : MoveAndMergeChunksPhaseState)
    (act : MigrateInfo) (resp : MStatus) (r : MoveAndMergeRequest)
    (st2 : MoveAndMergeChunksPhaseState)
    (hfind : st.findOutstandingMigration act.minKey = some r)
    (happ : st.applyMigrationResult act resp = some st2) :
    st2.outstandingMerges = st.outstandingMerges ∧
      ∀ q ∈ st2.actionableMerges,
        q ∈ st.actionableMerges ∨ (q = r ∧ resp = .ok) := by
  unfold MoveAndMergeChunksPhaseState.applyMigrationResult at happ
  rw [hfind] at happ
  dsimp only at happ
  by_cases hab : st.aborted
  · rw [if_pos hab] at happ
    have h2 := Option.some.inj happ
    subst h2
    exact ⟨rfl, fun q hq => Or.inl hq⟩
  · rw [if_neg hab] at happ
    cases resp with
    | ok =>
        dsimp only [handleActionResult] at happ
        have h2 := Option.some.inj happ
        subst h2
        refine ⟨(migrationOnSuccess_queues _ r).2, ?_⟩
        intro q hq
        rw [(migrationOnSuccess_queues _ r).1] at hq
        rcases List.mem_append.mp hq with hq | hq
        · exact Or.inl hq
        · exact Or.inr ⟨List.mem_singleton.mp hq, rfl⟩
    | err rtr =>
        dsimp only [handleActionResult] at happ
        cases rtr with
        | true =>
            rw [if_pos rfl] at happ
            have h2 := Option.some.inj happ
            subst h2
            exact ⟨rfl, fun q hq => Or.inl hq⟩
        | false =>
            rw [if_neg Bool.false_ne_true] at happ
            have h2 := Option.some.inj happ
            subst h2
            refine ⟨rfl, ?_⟩
            intro q hq
            exact absurd hq (List.not_mem_nil q)

/-- Detailed effect of a merge acknowledgment on the merge queues: requests
only leave `_outstandingMerges`, and a request enters `_actionableMerges`
only if it is the matched request (re-queued on a retriable error). -/
theorem applyMergeResult_queues (st : MoveAndMergeChunksPhaseState)
    (act : MergeInfo) (resp : MStatus) (r : MoveAndMergeRequest)
    (st2 : MoveAndMergeChunksPhaseState)
    (hfind : st.findOutstandingMerge act.chunkRange = some r)
    (happ : st.applyMergeResult act resp = some st2) :
    (∀ q ∈ st2.outstandingMerges, q ∈ st.outstandingMerges) ∧
      ∀ q ∈ st2.actionableMerges, q ∈ st.actionableMerges ∨ q = r := by
  unfold MoveAndMergeChunksPhaseState.applyMergeResult at happ
  rw [hfind] at happ
  dsimp only at happ
  have herase : ∀ q, q ∈ st.outstandingMerges.eraseP (fun request =>
      act.chunkRange.containsKey (st.chunkAt request.chunkToMove).range.getMin) →
      q ∈ st.outstandingMerges :=
    fun q hq => (List.eraseP_sublist _).mem hq
  by_cases hab : st.aborted
  · rw [if_pos hab] at happ
    have h2 := Option.some.inj happ
    subst h2
    exact ⟨herase, fun q hq => Or.inl hq⟩
  · rw [if_neg hab] at happ
    cases resp with
    | ok =>
        dsimp only [handleActionResult] at happ
        have h2 := Option.some.inj happ
        subst h2
        constructor
        · intro q hq
          rw [(mergeOnSuccess_queues _ r).2] at hq
          exact herase q hq
        · intro q hq
          rw [(mergeOnSuccess_queues _ r).1] at hq
          exact Or.inl hq
    | err rtr =>
        dsimp only [handleActionResult] at happ
        cases rtr with
        | true =>
            rw [if_pos rfl] at happ
            have h2 := Option.some.inj happ
            subst h2
            refine ⟨herase, ?_⟩
            intro q hq
            rcases List.mem_append.mp hq with hq | hq
            · exact Or.inl hq
            · exact Or.inr (List.mem_singleton.mp hq)
        | false =>
            rw [if_neg Bool.false_ne_true] at happ
            have h2 := Option.some.inj happ
            subst h2
            exact ⟨herase, fun q hq => absurd hq (List.not_mem_nil q)⟩

/-- Every request found in `_outstandingMerges` is a member of the queue. -/
theorem findOutstandingMerge_mem (st : MoveAndMergeChunksPhaseState)
    (range : ChunkRange) (r : MoveAndMergeRequest)
    (h : st.findOutstandingMerge range = some r) : r ∈ st.outstandingMerges :=
  List.mem_of_find?_eq_some h

/-- The key invariant behind C1: in every reachable state of the
move-and-merge phase (starting with empty merge queues), every request in
`_actionableMerges` or `_outstandingMerges` has a successful migration
acknowledgment in the trace. -/
theorem mmReach_merge_queues_acked (env : ShardId → Nat)
    (init : MoveAndMergeChunksPhaseState)
    (hinit : init.actionableMerges = [] ∧ init.outstandingMerges = [])
    {st : MoveAndMergeChunksPhaseState} {tr : List MMEvent}
    (h : MMReach env init st tr) :
    ∀ r : MoveAndMergeRequest,
      (r ∈ st.actionableMerges ∨ r ∈ st.outstandingMerges) →
      MMEvent.ackMigration r MStatus.ok ∈ tr := by
  induction h with
  | refl =>
      intro r hr
      rcases hr with hr | hr
      · rw [hinit.1] at hr
        exact absurd hr (List.not_mem_nil r)
      · rw [hinit.2] at hr
        exact absurd hr (List.not_mem_nil r)
  | step hreach hstep ih =>
      intro r hr
      cases hstep with
      | popMigration h1 =>
          apply List.mem_append_left
          apply ih
          rename_i stA trA stB used used2 mi
          unfold MoveAndMergeChunksPhaseState.popNextMigration at h1
          have hq := popNextMigrationAux_queues env stA.shardProcessingOrder
            stA used
          rw [h1] at hq
          dsimp only at hq
          rcases hr with hr | hr
          · exact Or.inl (hq.1 ▸ hr)
          · exact Or.inr (hq.2 ▸ hr)
      | popMigrationNone h1 =>
          apply List.mem_append_left
          apply ih
          rename_i stA trA stB used used2
          unfold MoveAndMergeChunksPhaseState.popNextMigration at h1
          have hq := popNextMigrationAux_queues env stA.shardProcessingOrder
            stA used
          rw [h1] at hq
          dsimp only at hq
          rcases hr with hr | hr
          · exact Or.inl (hq.1 ▸ hr)
          · exact Or.inr (hq.2 ▸ hr)
      | popStreamable h1 h2 =>
          apply List.mem_append_left
          apply ih
          rename_i stA trA stB r0 rest a
          have hpop : stA.popNextStreamableAction env =
              (some (.mergeA (({ stA with
                  actionableMerges := rest
                  outstandingMerges := stA.outstandingMerges ++ [r0]
                } : MoveAndMergeChunksPhaseState).asMergeInfo r0
                  (env ((({ stA with
                    actionableMerges := rest
                    outstandingMerges := stA.outstandingMerges ++ [r0]
                  } : MoveAndMergeChunksPhaseState)).chunkAt
                      r0.chunkToMergeWith).shard))),
                { stA with
                  actionableMerges := rest
                  outstandingMerges := stA.outstandingMerges ++ [r0] }) := by
            unfold MoveAndMergeChunksPhaseState.popNextStreamableAction
            rw [h1]
          rw [hpop] at h2
          have hst2 := congrArg Prod.snd h2
          dsimp only at hst2
          rw [← hst2] at hr
          rcases hr with hr | hr
          · exact Or.inl (h1 ▸ List.mem_cons_of_mem r0 hr)
          · rcases List.mem_append.mp hr with hr | hr
            · exact Or.inr hr
            · have := List.mem_singleton.mp hr
              subst this
              exact Or.inl (h1 ▸ List.mem_cons_self r rest)
      | popStreamableNone h1 =>
          apply List.mem_append_left
          apply ih
          rename_i stA trA stB
          cases hact : stA.actionableMerges with
          | nil =>
              have hpop : stA.popNextStreamableAction env = (none, stA) := by
                unfold MoveAndMergeChunksPhaseState.popNextStreamableAction
                rw [hact]
              rw [hpop] at h1
              have hst2 := congrArg Prod.snd h1
              dsimp only at hst2
              rw [← hst2] at hr
              rw [hact] at hr
              exact hr
          | cons q rest =>
              exfalso
              have hpop : (stA.popNextStreamableAction env).1.isSome = true := by
                unfold MoveAndMergeChunksPhaseState.popNextStreamableAction
                rw [hact]
                rfl
              rw [h1] at hpop
              exact Bool.noConfusion hpop
      | ackMigration h1 h2 =>
          rename_i stA trA stB act resp r0
          have happ : stA.applyMigrationResult act resp = some _ := h2
          have hq := applyMigrationResult_queues stA act resp r0 _ h1 happ
          rcases hr with hr | hr
          · rcases hq.2 r hr with hmem | ⟨hqr, hresp⟩
            · exact List.mem_append_left _ (ih r (Or.inl hmem))
            · subst hqr
              subst hresp
              exact List.mem_append_right _ (List.mem_singleton.mpr rfl)
          · rw [hq.1] at hr
            exact List.mem_append_left _ (ih r (Or.inr hr))
      | ackMerge h1 h2 =>
          rename_i stA trA stB act resp r0
          have happ : stA.applyMergeResult act resp = some _ := h2
          have hq := applyMergeResult_queues stA act resp r0 _ h1 happ
          apply List.mem_append_left
          apply ih
          rcases hr with hr | hr
          · rcases hq.2 r hr with hmem | hqr
            · exact Or.inl hmem
            · subst hqr
              exact Or.inr (findOutstandingMerge_mem stA act.chunkRange r h1)
          · exact Or.inr (hq.1 r hr)

/-- C1: starting from a state of the move-and-merge phase with empty merge
queues (as built by `MoveAndMergeChunksPhase::build`), in every reachable
trace of phase operations, a `MergeChunks` action for a move-and-merge
request is emitted by `popNextStreamableAction` only after an earlier
successful acknowledgment of that request's `MigrateChunk` action: requests
reach `_actionableMerges` — the only source of streamable merges — solely
through the migration-success handler. -/
theorem c1_merge_emitted_only_after_migration_success (env : ShardId → Nat)
    (init : MoveAndMergeChunksPhaseState)
    (hinit : init.actionableMerges = [] ∧ init.outstandingMerges = [])
    {st : MoveAndMergeChunksPhaseState} {tr : List MMEvent}
    (h : MMReach env init st tr) :
    ∀ (tr1 : List MMEvent) (r : MoveAndMergeRequest)
      (a : DefragmentationAction) (tr2 : List MMEvent),
      tr = tr1 ++ MMEvent.emitMerge r a :: tr2 →
      MMEvent.ackMigration r MStatus.ok ∈ tr1 := by
  induction h with
  | refl =>
      intro tr1 r a tr2 heq
      exact absurd heq (by simp)
  | step hreach hstep ih =>
      intro tr1 r a tr2 heq
      rcases List.eq_nil_or_concat tr2 with h2 | ⟨tr2x, e2, h2⟩
      · subst h2
        have hlen : tr1 ++ [MMEvent.emitMerge r a] = _ ++ [_] := heq.symm
        have hht := List.append_inj' hlen rfl
        obtain ⟨htr, he⟩ := hht
        have he2 : MMEvent.emitMerge r a = _ := (List.cons_eq_cons.mp he).1
        rw [htr]
        cases hstep with
        | popMigration h1 => exact MMEvent.noConfusion he2
        | popMigrationNone h1 => exact MMEvent.noConfusion he2
        | popStreamable h1 hp2 =>
            rename_i stA trA stB r0 rest a0
            have hr0 : r = r0 := by
              cases he2
              rfl
            subst hr0
            exact mmReach_merge_queues_acked env init hinit hreach r
              (Or.inl (h1 ▸ List.mem_cons_self r rest))
        | popStreamableNone h1 => exact MMEvent.noConfusion he2
        | ackMigration h1 hp2 => exact MMEvent.noConfusion he2
        | ackMerge h1 hp2 => exact MMEvent.noConfusion he2
      · subst h2
        rename_i stA trA eA stB
        have heq2 : trA ++ [eA] =
            (tr1 ++ MMEvent.emitMerge r a :: tr2x) ++ [e2] := by
          rw [heq]
          simp
        obtain ⟨htr, _⟩ := List.append_inj' heq2 rfl
        exact ih tr1 r a tr2x htr

/-- Shard-version environment for the C1 scenario. -/
def c1env : ShardId → Nat := fun _ => 0

/-- Two small adjacent chunks on different shards; shard 1 is the bigger
shard and is processed first, so its chunk 2 migrates onto shard 0. -/
def c1init : MoveAndMergeChunksPhaseState where
  uuid := 17
  collectionChunks :=
    [(1, ⟨⟨⟨0, 0⟩, ⟨10, 0⟩⟩, 0, 5, false⟩),
      (2, ⟨⟨⟨10, 0⟩, ⟨20, 0⟩⟩, 1, 5, false⟩)]
  smallChunksByShard := [(0, [1]), (1, [2])]
  shardInfos := [(0, ⟨5, 0, false⟩), (1, ⟨85, 0, false⟩)]
  shardProcessingOrder := [1, 0]
  outstandingMigrations := []
  actionableMerges := []
  outstandingMerges := []
  zoneOf := fun _ => 0
  smallChunkSizeThresholdBytes := 25
  aborted := false
  nextPhase := DefragmentationPhaseEnum.kSplitChunks

/-- First engine operation of the scenario: pop the next migration. -/
def c1pop : Option MigrateInfo × MoveAndMergeChunksPhaseState × List ShardId :=
  c1init.popNextMigration c1env []

/-- The migration descriptor `popNextMigration` returns: chunk 2 of shard 1
moves next to its left sibling on shard 0. -/
def c1mi : MigrateInfo := ⟨0, 17, 1, ⟨10, 0⟩, ⟨20, 0⟩, 0⟩

/-- State after the migration was created. -/
def c1st1 : MoveAndMergeChunksPhaseState := c1pop.2.1

/-- The outstanding move-and-merge request behind `c1mi`. -/
def c1req : MoveAndMergeRequest := ⟨2, 1, true⟩

/-- State after the migration result was acknowledged as successful. -/
def c1st2 : MoveAndMergeChunksPhaseState :=
  (c1st1.applyActionResult (.migrateA c1mi) (.statusR .ok)).getD c1st1

/-- Third engine operation: stream the now-actionable merge. -/
def c1popS : Option DefragmentationAction × MoveAndMergeChunksPhaseState :=
  c1st2.popNextStreamableAction c1env

/-- The streamed `MergeChunks` action. -/
def c1a : DefragmentationAction := c1popS.1.getD .endOfActionStream

/-- Final state of the scenario. -/
def c1st3 : MoveAndMergeChunksPhaseState := c1popS.2

/-- The three events of the scenario. -/
def c1e1 : MMEvent := .emitMigration c1mi

/-- Successful migration acknowledgment event. -/
def c1e2 : MMEvent := .ackMigration c1req .ok

/-- Merge emission event. -/
def c1e3 : MMEvent := .emitMerge c1req c1a

/-- The scenario is a real three-step trace of the phase. -/
theorem c1_reach : MMReach c1env c1init c1st3 [c1e1, c1e2, c1e3] := by
  have s1 : MMStep c1env c1init c1e1 c1st1 :=
    @MMStep.popMigration c1env c1init c1st1 [] c1pop.2.2 c1mi rfl
  have s2 : MMStep c1env c1st1 c1e2 c1st2 :=
    @MMStep.ackMigration c1env c1st1 c1st2 c1mi MStatus.ok c1req rfl rfl
  have s3 : MMStep c1env c1st2 c1e3 c1st3 :=
    @MMStep.popStreamable c1env c1st2 c1st3 c1req [] c1a rfl rfl
  exact ((MMReach.refl.step s1).step s2).step s3

/-- C1 witness: in the concrete three-event trace, the merge emission for the
request is preceded by the successful acknowledgment of its migration. -/
theorem c1_witness : MMEvent.ackMigration c1req MStatus.ok ∈ [c1e1, c1e2] :=
  c1_merge_emitted_only_after_migration_success c1env c1init ⟨rfl, rfl⟩
    c1_reach [c1e1, c1e2] c1req c1a [] rfl

/-! ## C5 — `getNextStreamingAction` after `closeActionStream` -/

/-- Engine environment for the C5 scenario. -/
def c5env : PolicyEnv := ⟨fun _ => 0, fun _ _ => none⟩

/-- Engine state right after `closeActionStream` with an idle stream: no
enrolled collections, closed flag set, streaming-ops counter below the cap. -/
def c5state : EngineState :=
  { defragmentationStates := []
    concurrentStreamingOps := 0
    kMaxConcurrentOperations := 50
    hasPendingPromise := false
    streamClosed := true }

/-- C5 failing-input evaluation: with the stream closed, no collection
enrolled and the concurrency cap not reached, `getNextStreamingAction` parks
the consumer instead of returning `EndOfActionStream`.  The `_streamClosed`
branch of `_nextStreamingAction` (source line 1171) assigns an *empty*
`boost::optional<EndOfActionStream>` — boost's converting assignment keeps
`noAction` disengaged — so the branch has no effect and the claim's/spec's
intended `EndOfStream` result is never produced on this path. -/
theorem c5_closed_stream_parks_instead_of_endOfStream :
    c5state.streamClosed = true ∧
      c5state.defragmentationStates = [] ∧
      c5state.concurrentStreamingOps < (c5state.kMaxConcurrentOperations : Int) ∧
      (getNextStreamingAction c5env 1 c5state).1 = .parked ∧
      ¬ (getNextStreamingAction c5env 1 c5state).1 =
        .ready .endOfActionStream := by
  refine ⟨rfl, rfl, by decide, rfl, by decide⟩

/-- Witness for C3: the theorem applied to the concrete scenario (merging
`[0,10)` size 5 into `[10,20)` size 7 on shard 1). -/
theorem c3_witness :
    ∃ st2, c3state.applyMergeResult c3act .ok = some st2 ∧
      (∃ c2, alookup c3req.chunkToMergeWith st2.collectionChunks = some c2 ∧
        c2.range.getMin.val =
          min c3cm.range.getMin.val c3cw.range.getMin.val ∧
        c2.range.getMax.val =
          max c3cm.range.getMax.val c3cw.range.getMax.val ∧
        c2.estimatedSizeBytes = c3cw.estimatedSizeBytes + c3cm.estimatedSizeBytes ∧
        c2.busyInOperation = false ∧ c2.shard = c3cw.shard) ∧
      alookup c3req.chunkToMove st2.collectionChunks = none ∧
      NotInSmall st2.smallChunksByShard c3cm.shard c3req.chunkToMove :=
  c3_merge_success_updates c3state c3act c3req c3cm c3cw rfl (by decide) rfl rfl
    (by decide) (by decide) (by decide)
    (fun l hl => by
      have h2 : [1] = l := Option.some.inj hl
      subst h2
      decide)
    (by decide) (by decide) (by decide)

/-! ## C10 — termination of `selectChunksToMove` and one migration per shard

Well-formedness of the move-and-merge phase data (each list of
`_smallChunksByShard` only holds chunks living on that shard) and a finite
shard support `S` (every chunk record names a shard in `S`) are the
invariants behind the round-robin argument of `selectChunksToMove`. -/

/-- `_smallChunksByShard` is keyed consistently with the chunk records. -/
def smallChunksWF (st : MoveAndMergeChunksPhaseState) : Prop :=
  ∀ p ∈ st.smallChunksByShard, ∀ c ∈ p.2, (st.chunkAt c).shard = p.1

/-- Every chunk record (including the default) names a shard in `S`. -/
def shardsBounded (S : List ShardId) (st : MoveAndMergeChunksPhaseState) : Prop :=
  ∀ cid : ChunkId, (st.chunkAt cid).shard ∈ S

theorem mem_insertShard_self (s : ShardId) (l : List ShardId) :
    s ∈ insertShard s l := by
  unfold insertShard
  by_cases h : s ∈ l
  · rw [if_pos h]
    exact h
  · rw [if_neg h]
    exact List.mem_cons_self s l

theorem mem_insertShard_of_mem (s x : ShardId) (l : List ShardId) (h : x ∈ l) :
    x ∈ insertShard s l := by
  unfold insertShard
  by_cases hs : s ∈ l
  · rw [if_pos hs]
    exact h
  · rw [if_neg hs]
    exact List.mem_cons_of_mem s h

theorem shard_contains_iff (l : List ShardId) (x : ShardId) :
    l.contains x = true ↔ x ∈ l := by
  induction l with
  | nil => simp
  | cons a t ih => simp

theorem mem_updateEntry {α : Type} (k : Nat) (f : α → α) :
    ∀ (m : List (Nat × α)) (e : Nat × α), e ∈ updateEntry k f m →
      e ∈ m ∨ ∃ v, alookup k m = some v ∧ e = (k, f v) := by
  intro m
  induction m with
  | nil =>
      intro e h
      exact absurd h (List.not_mem_nil e)
  | cons a rest ih =>
      obtain ⟨k2, v⟩ := a
      intro e h
      unfold updateEntry at h
      by_cases hk : k2 = k
      · rw [if_pos hk] at h
        subst hk
        rcases List.mem_cons.mp h with he | he
        · exact Or.inr ⟨v, by simp [alookup], he⟩
        · exact Or.inl (List.mem_cons_of_mem _ he)
      · rw [if_neg hk] at h
        rcases List.mem_cons.mp h with he | he
        · exact Or.inl (he ▸ List.mem_cons_self _ _)
        · rcases ih e he with h1 | ⟨v2, hv2, he2⟩
          · exact Or.inl (List.mem_cons_of_mem _ h1)
          · exact Or.inr ⟨v2, by simpa [alookup, hk] using hv2, he2⟩

theorem mem_eraseEntry {α : Type} (k : Nat) :
    ∀ (m : List (Nat × α)) (e : Nat × α), e ∈ eraseEntry k m → e ∈ m := by
  intro m
  induction m with
  | nil =>
      intro e h
      exact absurd h (List.not_mem_nil e)
  | cons a rest ih =>
      obtain ⟨k2, v⟩ := a
      intro e h
      unfold eraseEntry at h
      by_cases hk : k2 = k
      · rw [if_pos hk] at h
        exact List.mem_cons_of_mem _ h
      · rw [if_neg hk] at h
        rcases List.mem_cons.mp h with he | he
        · exact he ▸ List.mem_cons_self _ _
        · exact List.mem_cons_of_mem _ (ih e he)

theorem alookup_some_mem {α : Type} (k : Nat) :
    ∀ (m : List (Nat × α)) {v : α}, alookup k m = some v → (k, v) ∈ m := by
  intro m
  induction m with
  | nil =>
      intro v h
      exact Option.noConfusion h
  | cons a rest ih =>
      obtain ⟨k2, v2⟩ := a
      intro v h
      unfold alookup at h
      by_cases hk : k2 = k
      · rw [if_pos hk] at h
        subst hk
        have h2 := Option.some.inj h
        subst h2
        exact List.mem_cons_self _ _
      · rw [if_neg hk] at h
        exact List.mem_cons_of_mem _ (ih h)

/-- The candidate returned by the scan is one of the scanned chunks. -/
theorem findCandidateAux_mem (st : MoveAndMergeChunksPhaseState)
    (used : List ShardId) :
    ∀ (l : List ChunkId) {cand : ChunkId} {sibs l2 : List ChunkId},
      st.findCandidateAux used l = (some (cand, sibs), l2) → cand ∈ l := by
  intro l
  induction l with
  | nil =>
      intro cand sibs l2 h
      exact Option.noConfusion (congrArg Prod.fst h)
  | cons candidate rest ih =>
      intro cand sibs l2 h
      unfold MoveAndMergeChunksPhaseState.findCandidateAux at h
      by_cases hb : (st.chunkAt candidate).busyInOperation
      · rw [if_pos hb] at h
        dsimp only at h
        cases hr : st.findCandidateAux used rest with
        | mk r rest2 =>
            rw [hr] at h
            cases h
            exact List.mem_cons_of_mem _ (ih hr)
      · rw [if_neg hb] at h
        by_cases he : (st.getChunkSiblings candidate).isEmpty
        · rw [if_pos he] at h
          exact List.mem_cons_of_mem _ (ih h)
        · rw [if_neg he] at h
          by_cases hs : ((st.getChunkSiblings candidate).filter fun sibling =>
              !(st.chunkAt sibling).busyInOperation &&
                !(used.contains (st.chunkAt sibling).shard)).isEmpty
          · rw [if_pos hs] at h
            dsimp only at h
            cases hr : st.findCandidateAux used rest with
            | mk r rest2 =>
                rw [hr] at h
                cases h
                exact List.mem_cons_of_mem _ (ih hr)
          · rw [if_neg hs] at h
            have hc : cand = candidate :=
              (Prod.mk.injEq _ _ _ _).mp
                (Option.some.inj (congrArg Prod.fst h)) |>.1.symm
            exact hc ▸ List.mem_cons_self _ _

/-- The mutated scan list only keeps chunks of the original list. -/
theorem findCandidateAux_subset (st : MoveAndMergeChunksPhaseState)
    (used : List ShardId) :
    ∀ (l : List ChunkId), ∀ c ∈ (st.findCandidateAux used l).2, c ∈ l := by
  intro l
  induction l with
  | nil =>
      intro c hc
      exact absurd hc (List.not_mem_nil c)
  | cons candidate rest ih =>
      intro c hc
      unfold MoveAndMergeChunksPhaseState.findCandidateAux at hc
      by_cases hb : (st.chunkAt candidate).busyInOperation
      · rw [if_pos hb] at hc
        dsimp only at hc
        cases hr : st.findCandidateAux used rest with
        | mk r rest2 =>
            rw [hr] at hc
            dsimp only at hc
            rcases List.mem_cons.mp hc with he | he
            · exact he ▸ List.mem_cons_self _ _
            · refine List.mem_cons_of_mem _ (ih c ?_)
              rw [hr]
              exact he
      · rw [if_neg hb] at hc
        by_cases he : (st.getChunkSiblings candidate).isEmpty
        · rw [if_pos he] at hc
          exact List.mem_cons_of_mem _ (ih c hc)
        · rw [if_neg he] at hc
          by_cases hs : ((st.getChunkSiblings candidate).filter fun sibling =>
              !(st.chunkAt sibling).busyInOperation &&
                !(used.contains (st.chunkAt sibling).shard)).isEmpty
          · rw [if_pos hs] at hc
            dsimp only at hc
            cases hr : st.findCandidateAux used rest with
            | mk r rest2 =>
                rw [hr] at hc
                dsimp only at hc
                rcases List.mem_cons.mp hc with he2 | he2
                · exact he2 ▸ List.mem_cons_self _ _
                · refine List.mem_cons_of_mem _ (ih c ?_)
                  rw [hr]
                  exact he2
          · rw [if_neg hs] at hc
            dsimp only at hc
            exact hc

/-- `smallChunksWF` transfers along states with the same small-chunk index
and the same shard assignment of chunk records. -/
theorem smallChunksWF_transfer (st st2 : MoveAndMergeChunksPhaseState)
    (hsmall : st2.smallChunksByShard = st.smallChunksByShard)
    (hsh : ∀ x, (st2.chunkAt x).shard = (st.chunkAt x).shard)
    (hwf : smallChunksWF st) : smallChunksWF st2 := by
  intro p hp c hc
  rw [hsh]
  exact hwf p (hsmall ▸ hp) c hc

theorem shardsBounded_transfer (S : List ShardId)
    (st st2 : MoveAndMergeChunksPhaseState)
    (hsh : ∀ x, (st2.chunkAt x).shard = (st.chunkAt x).shard)
    (hb : shardsBounded S st) : shardsBounded S st2 :=
  fun cid => hsh cid ▸ hb cid

/-- `_findNextSmallChunkInShard` keeps the small-chunk index consistent. -/
theorem findNext_preserves_wf (st : MoveAndMergeChunksPhaseState)
    (sh : ShardId) (used : List ShardId) (hwf : smallChunksWF st) :
    smallChunksWF (st.findNextSmallChunkInShard sh used).2 := by
  unfold MoveAndMergeChunksPhaseState.findNextSmallChunkInShard
  cases hl : alookup sh st.smallChunksByShard with
  | none => exact hwf
  | some l =>
      dsimp only
      have hmem0 : (sh, l) ∈ st.smallChunksByShard := alookup_some_mem sh _ hl
      cases hr : st.findCandidateAux used l with
      | mk r newList =>
          have hsub : ∀ c ∈ newList, c ∈ l := by
            intro c hc
            have := findCandidateAux_subset st used l c
            rw [hr] at this
            exact this hc
          have hupd : smallChunksWF { st with
              smallChunksByShard :=
                updateEntry sh (fun _ => newList) st.smallChunksByShard } := by
            intro p hp c hc
            rcases mem_updateEntry sh (fun _ => newList)
                st.smallChunksByShard p hp with h1 | ⟨v, hv, he⟩
            · exact hwf p h1 c hc
            · rw [he] at hc
              rw [he]
              exact hwf (sh, l) hmem0 c (hsub c hc)
          cases r with
          | some found => exact hupd
          | none =>
              dsimp only
              by_cases he : newList.isEmpty
              · rw [if_pos he]
                intro p hp c hc
                exact hwf p (mem_eraseEntry sh _ p hp) c hc
              · rw [if_neg he]
                exact hupd

/-- A successful `_findNextSmallChunkInShard` returns a candidate drawn from
the shard's registered small-chunk list. -/
theorem findNext_some_mem (st : MoveAndMergeChunksPhaseState) (sh : ShardId)
    (used : List ShardId) {cand : ChunkId} {sibs : List ChunkId}
    {st1 : MoveAndMergeChunksPhaseState}
    (h : st.findNextSmallChunkInShard sh used = (some (cand, sibs), st1)) :
    ∃ l, alookup sh st.smallChunksByShard = some l ∧ cand ∈ l := by
  unfold MoveAndMergeChunksPhaseState.findNextSmallChunkInShard at h
  cases hl : alookup sh st.smallChunksByShard with
  | none =>
      rw [hl] at h
      exact Option.noConfusion (congrArg Prod.fst h)
  | some l =>
      rw [hl] at h
      dsimp only at h
      cases hr : st.findCandidateAux used l with
      | mk r newList =>
          rw [hr] at h
          cases r with
          | none =>
              dsimp only at h
              by_cases he : newList.isEmpty
              · rw [if_pos he] at h
                exact Option.noConfusion (congrArg Prod.fst h)
              · rw [if_neg he] at h
                exact Option.noConfusion (congrArg Prod.fst h)
          | some found =>
              obtain ⟨cand2, sibs2⟩ := found
              dsimp only at h
              have hps := Option.some.inj (congrArg Prod.fst h)
              have hc : cand2 = cand := ((Prod.mk.injEq _ _ _ _).mp hps).1
              subst hc
              exact ⟨l, rfl, findCandidateAux_mem st used l hr⟩

/-- Full specification of `popNextMigration`'s body with respect to
`usedShards`: the phase invariants are preserved; without a migration the
used set is untouched; with a migration `mi`, its source and destination
shards were both outside `usedShards`, both lie in the support `S`, and both
are inserted into the returned used set. -/
theorem popNextMigrationAux_spec (env : ShardId → Nat) (S : List ShardId) :
    ∀ (shards : List ShardId) (st : MoveAndMergeChunksPhaseState)
      (used : List ShardId) {r : Option MigrateInfo}
      {st2 : MoveAndMergeChunksPhaseState} {used2 : List ShardId},
      MoveAndMergeChunksPhaseState.popNextMigrationAux env st used shards =
        (r, st2, used2) →
      smallChunksWF st → shardsBounded S st →
      (smallChunksWF st2 ∧ shardsBounded S st2) ∧
      (r = none → used2 = used) ∧
      (∀ mi, r = some mi →
        mi.sourceShard ∉ used ∧ mi.destShard ∉ used ∧
        mi.sourceShard ∈ S ∧ mi.destShard ∈ S ∧
        used2 = insertShard mi.destShard (insertShard mi.sourceShard used)) := by
  intro shards
  induction shards with
  | nil =>
      intro st used r st2 used2 h hwf hb
      have h1 := congrArg Prod.fst h
      dsimp only at h1
      have h2 := congrArg (fun p => p.2.1) h
      dsimp only at h2
      have h3 := congrArg (fun p => p.2.2) h
      dsimp only at h3
      subst h1
      subst h2
      subst h3
      exact ⟨⟨hwf, hb⟩, fun _ => rfl, fun mi hmi => Option.noConfusion hmi⟩
  | cons shardId restShards ih =>
      intro st used r st2 used2 h hwf hb
      unfold MoveAndMergeChunksPhaseState.popNextMigrationAux at h
      by_cases hu : used.contains shardId
      · rw [if_pos hu] at h
        exact ih st used h hwf hb
      · rw [if_neg hu] at h
        cases hfn : st.findNextSmallChunkInShard shardId used with
        | mk ro st1 =>
            rw [hfn] at h
            obtain ⟨small2, hshape⟩ := findNext_state_shape st shardId used
            rw [hfn] at hshape
            dsimp only at hshape
            have hsh1 : ∀ x, (st1.chunkAt x).shard = (st.chunkAt x).shard :=
              fun x =>
                (congrArg
                  (fun s => (MoveAndMergeChunksPhaseState.chunkAt s x).shard)
                  hshape).trans rfl
            have hwf1 : smallChunksWF st1 := by
              have := findNext_preserves_wf st shardId used hwf
              rw [hfn] at this
              exact this
            have hb1 : shardsBounded S st1 := shardsBounded_transfer S st st1 hsh1 hb
            cases ro with
            | none =>
                dsimp only at h
                exact ih st1 used h hwf1 hb1
            | some found =>
                obtain ⟨cand, sibs⟩ := found
                dsimp only at h
                obtain ⟨hsibs, hsne⟩ := findNext_some_spec st shardId used hfn
                obtain ⟨lw, hlw, hcmem⟩ := findNext_some_mem st shardId used hfn
                set tgt := st1.chooseTargetSibling cand sibs with htgt
                have hmemt : tgt ∈ sibs := chooseTargetSibling_mem st1 cand sibs hsne
                rw [hsibs] at hmemt
                have hfilter := List.mem_filter.mp hmemt
                have hshard : ∀ x : ChunkId,
                    (((st1.updateChunk cand fun c =>
                          { c with busyInOperation := true }).updateChunk tgt
                        fun c => { c with busyInOperation := true }).chunkAt x).shard =
                      (st.chunkAt x).shard := by
                  intro x
                  rw [chunkAt_updateChunk_shard
                      (st1.updateChunk cand fun c => { c with busyInOperation := true })
                      tgt (fun c => { c with busyInOperation := true })
                      (fun ci => rfl) x,
                    chunkAt_updateChunk_shard st1 cand
                      (fun c => { c with busyInOperation := true })
                      (fun ci => rfl) x,
                    hshape]
                  rfl
                have h1 := congrArg Prod.fst h
                dsimp only at h1
                have h2 := congrArg (fun p => p.2.1) h
                dsimp only at h2
                have h3 := congrArg (fun p => p.2.2) h
                dsimp only at h3
                subst h1
                subst h2
                subst h3
                have hcandshard : (st.chunkAt cand).shard = shardId :=
                  hwf (shardId, lw) (alookup_some_mem shardId _ hlw) cand hcmem
                have htgtfree :
                    (used.contains (st.chunkAt tgt).shard) = false := by
                  have hfb := hfilter.2
                  rw [Bool.and_eq_true] at hfb
                  have hfb2 := hfb.2
                  cases hcontains : used.contains (st.chunkAt tgt).shard with
                  | false => rfl
                  | true =>
                      rw [hcontains] at hfb2
                      exact Bool.noConfusion hfb2
                refine ⟨?_, fun hn => Option.noConfusion hn, ?_⟩
                · constructor
                  · refine smallChunksWF_transfer st1 _ rfl ?_ hwf1
                    intro x
                    exact (hshard x).trans (hsh1 x).symm
                  · exact shardsBounded_transfer S st _ hshard hb
                · intro mi hmi
                  have hmieq := Option.some.inj hmi
                  subst hmieq
                  refine ⟨?_, ?_, ?_, ?_, rfl⟩
                  · show (((st1.updateChunk cand fun c =>
                        { c with busyInOperation := true }).updateChunk tgt
                        fun c => { c with busyInOperation := true }).chunkAt
                          cand).shard ∉ used
                    rw [hshard cand, hcandshard]
                    intro hmem
                    exact hu ((shard_contains_iff used shardId).mpr hmem)
                  · show (((st1.updateChunk cand fun c =>
                        { c with busyInOperation := true }).updateChunk tgt
                        fun c => { c with busyInOperation := true }).chunkAt
                          tgt).shard ∉ used
                    rw [hshard tgt]
                    intro hmem
                    rw [(shard_contains_iff used _).mpr hmem] at htgtfree
                    exact Bool.noConfusion htgtfree
                  · show (((st1.updateChunk cand fun c =>
                        { c with busyInOperation := true }).updateChunk tgt
                        fun c => { c with busyInOperation := true }).chunkAt
                          cand).shard ∈ S
                    rw [hshard cand]
                    exact hb cand
                  · show (((st1.updateChunk cand fun c =>
                        { c with busyInOperation := true }).updateChunk tgt
                        fun c => { c with busyInOperation := true }).chunkAt
                          tgt).shard ∈ S
                    rw [hshard tgt]
                    exact hb tgt

/-- Chronicle of the migrations popped while threading `usedShards`: each
migration's source and destination shard were free beforehand, lie in the
support `S`, and are marked used afterwards. -/
inductive PopSeq (S : List ShardId) :
    List ShardId → List MigrateInfo → List ShardId → Prop where
  | nil (used : List ShardId) : PopSeq S used [] used
  | cons {used used2 : List ShardId} {mi : MigrateInfo} {ms : List MigrateInfo}
      (hs : mi.sourceShard ∉ used) (hd : mi.destShard ∉ used)
      (hsS : mi.sourceShard ∈ S) (hdS : mi.destShard ∈ S)
      (htail : PopSeq S
        (insertShard mi.destShard (insertShard mi.sourceShard used)) ms used2) :
      PopSeq S used (mi :: ms) used2

theorem PopSeq.append {S : List ShardId} :
    ∀ {u1 : List ShardId} {ms1 : List MigrateInfo} {u2 : List ShardId},
      PopSeq S u1 ms1 u2 →
      ∀ {ms2 : List MigrateInfo} {u3 : List ShardId}, PopSeq S u2 ms2 u3 →
        PopSeq S u1 (ms1 ++ ms2) u3 := by
  intro u1 ms1 u2 h1
  induction h1 with
  | nil used =>
      intro ms2 u3 h2
      exact h2
  | cons hs hd hsS hdS htail ih =>
      intro ms2 u3 h2
      exact PopSeq.cons hs hd hsS hdS (ih h2)

theorem PopSeq.mono {S : List ShardId} :
    ∀ {u : List ShardId} {ms : List MigrateInfo} {u2 : List ShardId},
      PopSeq S u ms u2 → ∀ x ∈ u, x ∈ u2 := by
  intro u ms u2 h
  induction h with
  | nil used => exact fun x hx => hx
  | cons hs hd hsS hdS htail ih =>
      intro x hx
      exact ih x (mem_insertShard_of_mem _ _ _ (mem_insertShard_of_mem _ _ _ hx))

theorem PopSeq.nil_inv {S : List ShardId} {u u2 : List ShardId}
    (h : PopSeq S u [] u2) : u2 = u := by
  cases h
  rfl

theorem PopSeq.fresh {S : List ShardId} :
    ∀ {u : List ShardId} {ms : List MigrateInfo} {u2 : List ShardId},
      PopSeq S u ms u2 →
      ∀ mi ∈ ms, mi.sourceShard ∉ u ∧ mi.destShard ∉ u := by
  intro u ms u2 h
  induction h with
  | nil used =>
      intro mi hmi
      exact absurd hmi (List.not_mem_nil mi)
  | cons hs hd hsS hdS htail ih =>
      intro mi hmi
      rcases List.mem_cons.mp hmi with he | he
      · subst he
        exact ⟨hs, hd⟩
      · have hf := ih mi he
        exact ⟨fun hx => hf.1
            (mem_insertShard_of_mem _ _ _ (mem_insertShard_of_mem _ _ _ hx)),
          fun hx => hf.2
            (mem_insertShard_of_mem _ _ _ (mem_insertShard_of_mem _ _ _ hx))⟩

theorem PopSeq.mem_S {S : List ShardId} :
    ∀ {u : List ShardId} {ms : List MigrateInfo} {u2 : List ShardId},
      PopSeq S u ms u2 →
      ∀ mi ∈ ms, mi.sourceShard ∈ S ∧ mi.destShard ∈ S := by
  intro u ms u2 h
  induction h with
  | nil used =>
      intro mi hmi
      exact absurd hmi (List.not_mem_nil mi)
  | cons hs hd hsS hdS htail ih =>
      intro mi hmi
      rcases List.mem_cons.mp hmi with he | he
      · subst he
        exact ⟨hsS, hdS⟩
      · exact ih mi he

/-- No two popped migrations involve a common shard: sources and
destinations are pairwise distinct across the list. -/
theorem PopSeq.pairwise {S : List ShardId} :
    ∀ {u : List ShardId} {ms : List MigrateInfo} {u2 : List ShardId},
      PopSeq S u ms u2 →
      ms.Pairwise (fun a b =>
        a.sourceShard ≠ b.sourceShard ∧ a.sourceShard ≠ b.destShard ∧
        a.destShard ≠ b.sourceShard ∧ a.destShard ≠ b.destShard) := by
  intro u ms u2 h
  induction h with
  | nil used => exact List.Pairwise.nil
  | cons hs hd hsS hdS htail ih =>
      rename_i used used2 mi ms
      refine List.Pairwise.cons ?_ ih
      intro b hb
      have hfb := PopSeq.fresh htail b hb
      have hsmem : mi.sourceShard ∈
          insertShard mi.destShard (insertShard mi.sourceShard used) :=
        mem_insertShard_of_mem _ _ _ (mem_insertShard_self _ _)
      have hdmem : mi.destShard ∈
          insertShard mi.destShard (insertShard mi.sourceShard used) :=
        mem_insertShard_self _ _
      refine ⟨?_, ?_, ?_, ?_⟩
      · intro heq
        exact hfb.1 (heq ▸ hsmem)
      · intro heq
        exact hfb.2 (heq ▸ hsmem)
      · intro heq
        exact hfb.1 (heq ▸ hdmem)
      · intro heq
        exact hfb.2 (heq ▸ hdmem)

/-- In particular the source shards of the popped migrations are distinct. -/
theorem PopSeq.sources_nodup {S : List ShardId} {u : List ShardId}
    {ms : List MigrateInfo} {u2 : List ShardId} (h : PopSeq S u ms u2) :
    (ms.map MigrateInfo.sourceShard).Nodup :=
  (List.pairwise_map).mpr ((PopSeq.pairwise h).imp fun hab => hab.1)

theorem countP_le_of_imp {α : Type} (p q : α → Bool) :
    ∀ l : List α, (∀ a ∈ l, p a = true → q a = true) →
      l.countP p ≤ l.countP q := by
  intro l
  induction l with
  | nil =>
      intro h
      exact Nat.le_refl _
  | cons a t ih =>
      intro h
      rw [List.countP_cons, List.countP_cons]
      have ht := ih fun x hx hpx => h x (List.mem_cons_of_mem a hx) hpx
      by_cases hp : p a = true
      · rw [if_pos hp, if_pos (h a (List.mem_cons_self a t) hp)]
        omega
      · rw [if_neg hp]
        by_cases hq : q a = true
        · rw [if_pos hq]
          omega
        · rw [if_neg hq]
          omega

theorem countP_lt_of_witness {α : Type} (p q : α → Bool) :
    ∀ l : List α, (∀ a ∈ l, p a = true → q a = true) →
      ∀ a0 ∈ l, q a0 = true → p a0 = false →
        l.countP p < l.countP q := by
  intro l
  induction l with
  | nil =>
      intro h a0 ha0
      exact absurd ha0 (List.not_mem_nil a0)
  | cons a t ih =>
      intro h a0 ha0 hq0 hp0
      rw [List.countP_cons, List.countP_cons]
      rcases List.mem_cons.mp ha0 with he | he
      · subst he
        have hle := countP_le_of_imp p q t
          fun x hx hpx => h x (List.mem_cons_of_mem _ hx) hpx
        rw [if_pos hq0, hp0, if_neg Bool.false_ne_true]
        omega
      · have hlt := ih (fun x hx hpx => h x (List.mem_cons_of_mem _ hx) hpx)
          a0 he hq0 hp0
        by_cases hp : p a = true
        · rw [if_pos hp, if_pos (h a (List.mem_cons_self a t) hp)]
          omega
        · rw [if_neg hp]
          by_cases hq : q a = true
          · rw [if_pos hq]
            omega
          · rw [if_neg hq]
            omega

/-- A non-empty pop chronicle strictly shrinks the number of still-free
shards of the support. -/
theorem PopSeq.lt_measure {S u u2 : List ShardId} {mi : MigrateInfo}
    {ms : List MigrateInfo} (h : PopSeq S u (mi :: ms) u2) :
    S.countP (fun s => !u2.contains s) <
      S.countP (fun s => !u.contains s) := by
  cases h with
  | cons hs hd hsS hdS htail =>
      apply countP_lt_of_witness _ _ S ?_ mi.sourceShard hsS ?_ ?_
      · intro a ha hpa
        show (!(u.contains a)) = true
        cases hc : u.contains a with
        | false => rfl
        | true =>
            exfalso
            have hmem : a ∈ u := (shard_contains_iff u a).mp hc
            have hmem2 : a ∈ u2 :=
              PopSeq.mono (PopSeq.cons hs hd hsS hdS htail) a hmem
            have hpa2 := hpa
            rw [show u2.contains a = true from
              (shard_contains_iff u2 a).mpr hmem2] at hpa2
            exact absurd hpa2 (by decide)
      · show (!(u.contains mi.sourceShard)) = true
        cases hc : u.contains mi.sourceShard with
        | false => rfl
        | true => exact absurd ((shard_contains_iff u _).mp hc) hs
      · have hmem2 : mi.sourceShard ∈ u2 :=
          PopSeq.mono htail mi.sourceShard
            (mem_insertShard_of_mem _ _ _ (mem_insertShard_self _ _))
        show (!(u2.contains mi.sourceShard)) = false
        rw [show u2.contains mi.sourceShard = true from
          (shard_contains_iff u2 _).mpr hmem2]
        rfl

/-- Phase-level well-formedness: only the move-and-merge phase feeds
`usedShards`, so only it carries the invariants. -/
def PhaseState.goodFor (S : List ShardId) : PhaseState → Prop
  | .mergeP _ => True
  | .moveAndMergeP s => smallChunksWF s ∧ shardsBounded S s
  | .splitP _ => True

/-- All enrolled collections carry well-formed phases. -/
def statesGoodFor (S : List ShardId) (states : List (Nat × PhaseState)) : Prop :=
  ∀ e ∈ states, PhaseState.goodFor S e.2

/-- The catalog only ever builds well-formed phases over the support `S`. -/
def PolicyEnv.goodFor (S : List ShardId) (env : PolicyEnv) : Prop :=
  ∀ uuid ph p, env.buildPhase uuid ph = some p → PhaseState.goodFor S p

/-- `_refreshDefragmentationPhaseFor` only yields well-formed phases. -/
theorem refreshPhase_good (env : PolicyEnv) (S : List ShardId) (uuid : Nat)
    (henv : PolicyEnv.goodFor S env) :
    ∀ (fuel : Nat) (op : Option PhaseState),
      (∀ p, op = some p → PhaseState.goodFor S p) →
      ∀ p1, refreshPhase env uuid fuel op = some p1 →
        PhaseState.goodFor S p1 := by
  intro fuel
  induction fuel with
  | zero =>
      intro op hop p1 h
      cases op with
      | none => exact Option.noConfusion h
      | some p => exact (Option.some.inj h) ▸ hop p rfl
  | succ n ih =>
      intro op hop p1 h
      cases op with
      | none => exact Option.noConfusion h
      | some p =>
          rw [show refreshPhase env uuid (n + 1) (some p) =
              if p.isComplete then
                refreshPhase env uuid n (transitionPhases env uuid p.getNextPhase)
              else some p from rfl] at h
          by_cases hc : p.isComplete
          · rw [if_pos hc] at h
            refine ih (transitionPhases env uuid p.getNextPhase) ?_ p1 h
            intro q hq
            cases hnp : p.getNextPhase with
            | kFinished =>
                rw [hnp] at hq
                exact Option.noConfusion hq
            | kMergeChunks =>
                rw [hnp] at hq
                exact henv uuid _ q hq
            | kMoveAndMergeChunks =>
                rw [hnp] at hq
                exact henv uuid _ q hq
            | kSplitChunks =>
                rw [hnp] at hq
                exact henv uuid _ q hq
          · rw [if_neg hc] at h
            exact (Option.some.inj h) ▸ hop p rfl

/-- `popNextMigration` dispatch: the `usedShards` contract at phase level. -/
theorem phase_pop_spec (envv : ShardId → Nat) (S : List ShardId)
    (p : PhaseState) (used : List ShardId) (hg : PhaseState.goodFor S p) :
    PhaseState.goodFor S (PhaseState.popNextMigration envv used p).2.1 ∧
    ((PhaseState.popNextMigration envv used p).1 = none →
      (PhaseState.popNextMigration envv used p).2.2 = used) ∧
    (∀ mi, (PhaseState.popNextMigration envv used p).1 = some mi →
      mi.sourceShard ∉ used ∧ mi.destShard ∉ used ∧
      mi.sourceShard ∈ S ∧ mi.destShard ∈ S ∧
      (PhaseState.popNextMigration envv used p).2.2 =
        insertShard mi.destShard (insertShard mi.sourceShard used)) := by
  cases p with
  | mergeP s =>
      exact ⟨trivial, fun _ => rfl, fun mi hmi => Option.noConfusion hmi⟩
  | splitP s =>
      exact ⟨trivial, fun _ => rfl, fun mi hmi => Option.noConfusion hmi⟩
  | moveAndMergeP s =>
      have hg2 : smallChunksWF s ∧ shardsBounded S s := hg
      cases hpop : s.popNextMigration envv used with
      | mk m pr =>
          obtain ⟨s2, used2⟩ := pr
          have hpop2 : MoveAndMergeChunksPhaseState.popNextMigrationAux envv s
              used s.shardProcessingOrder = (m, s2, used2) := hpop
          have hspec := popNextMigrationAux_spec envv S s.shardProcessingOrder
            s used hpop2 hg2.1 hg2.2
          have hred : PhaseState.popNextMigration envv used (.moveAndMergeP s) =
              (m, .moveAndMergeP s2, used2) := by
            unfold PhaseState.popNextMigration
            dsimp only
            conv_lhs => rw [hpop]
          rw [hred]
          exact ⟨hspec.1, hspec.2.1, hspec.2.2⟩

/-- One pass of the `selectChunksToMove` loop: well-formedness is preserved
and the migrations gathered by the pass form a pop chronicle from the
incoming used set to the outgoing one. -/
theorem selectPass_spec (env : PolicyEnv) (S : List ShardId) (fuel : Nat)
    (henv : PolicyEnv.goodFor S env) :
    ∀ (states : List (Nat × PhaseState)) (used : List ShardId),
      statesGoodFor S states →
      statesGoodFor S (selectPass env fuel states used).2.1 ∧
      PopSeq S used (selectPass env fuel states used).1
        (selectPass env fuel states used).2.2 := by
  intro states
  induction states with
  | nil =>
      intro used hg
      exact ⟨hg, PopSeq.nil used⟩
  | cons e rest ih =>
      obtain ⟨uuid, p⟩ := e
      intro used hg
      have hgrest : statesGoodFor S rest :=
        fun e2 he2 => hg e2 (List.mem_cons_of_mem _ he2)
      have hgp : PhaseState.goodFor S p := hg (uuid, p) (List.mem_cons_self _ _)
      cases hrp : refreshPhase env uuid fuel (some p) with
      | none =>
          have hred : selectPass env fuel ((uuid, p) :: rest) used =
              selectPass env fuel rest used := by
            conv_lhs => rw [selectPass, hrp]
          rw [hred]
          exact ih used hgrest
      | some p1 =>
          have hgp1 : PhaseState.goodFor S p1 :=
            refreshPhase_good env S uuid henv fuel (some p)
              (fun q hq => (Option.some.inj hq) ▸ hgp) p1 hrp
          cases hpop : PhaseState.popNextMigration env.version used p1 with
          | mk m pr =>
              obtain ⟨p2, used1⟩ := pr
              have hps := phase_pop_spec env.version S p1 used hgp1
              rw [hpop] at hps
              dsimp only at hps
              cases hsp : selectPass env fuel rest used1 with
              | mk ms pr2 =>
                  obtain ⟨rest2, used2⟩ := pr2
                  have hih := ih used1 hgrest
                  rw [hsp] at hih
                  dsimp only at hih
                  have hred : selectPass env fuel ((uuid, p) :: rest) used =
                      (m.toList ++ ms, (uuid, p2) :: rest2, used2) := by
                    conv_lhs => rw [selectPass, hrp]
                    dsimp only
                    conv_lhs => rw [hpop]
                    dsimp only
                    conv_lhs => rw [hsp]
                  rw [hred]
                  refine ⟨?_, ?_⟩
                  · intro e2 he2
                    rcases List.mem_cons.mp he2 with he | he
                    · rw [he]
                      exact hps.1
                    · exact hih.1 e2 he
                  · cases m with
                    | none =>
                        have hused1 : used1 = used := hps.2.1 rfl
                        show PopSeq S used ms used2
                        rw [← hused1]
                        exact hih.2
                    | some mi =>
                        have hspec := hps.2.2 mi rfl
                        show PopSeq S used (mi :: ms) used2
                        refine PopSeq.cons hspec.1 hspec.2.1 hspec.2.2.1
                          hspec.2.2.2.1 ?_
                        rw [← hspec.2.2.2.2]
                        exact hih.2

/-- The whole `while (!done)` loop gathers one pop chronicle. -/
theorem selectLoop_spec (env : PolicyEnv) (S : List ShardId) (fuel : Nat)
    (henv : PolicyEnv.goodFor S env) :
    ∀ (loopFuel : Nat) (states : List (Nat × PhaseState)) (used : List ShardId)
      (acc : List MigrateInfo),
      statesGoodFor S states →
      ∃ ms2, (selectLoop env fuel loopFuel states used acc).1 = acc ++ ms2 ∧
        PopSeq S used ms2 (selectLoop env fuel loopFuel states used acc).2.2.1 := by
  intro loopFuel
  induction loopFuel with
  | zero =>
      intro states used acc hg
      exact ⟨[], (List.append_nil acc).symm, PopSeq.nil used⟩
  | succ n ih =>
      intro states used acc hg
      have hpass := selectPass_spec env S fuel henv states used hg
      cases hsp : selectPass env fuel states used with
      | mk ms pr =>
          obtain ⟨states2, used2⟩ := pr
          rw [hsp] at hpass
          dsimp only at hpass
          have hred : selectLoop env fuel (n + 1) states used acc =
              if ms.isEmpty then (acc, states2, used2, true)
              else selectLoop env fuel n states2 used2 (acc ++ ms) := by
            conv_lhs => rw [selectLoop, hsp]
          rw [hred]
          by_cases hempty : ms.isEmpty
          · rw [if_pos hempty]
            have hms : ms = [] := by
              cases ms with
              | nil => rfl
              | cons a t => exact Bool.noConfusion hempty
            subst hms
            have hu2 : used2 = used := PopSeq.nil_inv hpass.2
            refine ⟨[], (List.append_nil acc).symm, ?_⟩
            dsimp only
            rw [hu2]
            exact PopSeq.nil used
          · rw [if_neg hempty]
            obtain ⟨ms2, hms2, hseq⟩ := ih states2 used2 (acc ++ ms) hpass.1
            refine ⟨ms ++ ms2, ?_, ?_⟩
            · rw [hms2, List.append_assoc]
            · exact PopSeq.append hpass.2 hseq

/-- With enough loop fuel (one more than the number of shards of the support
still outside `usedShards`), the loop reaches its exit condition: each
productive pass strictly shrinks that number, an unproductive pass ends the
loop. -/
theorem selectLoop_terminated (env : PolicyEnv) (S : List ShardId) (fuel : Nat)
    (henv : PolicyEnv.goodFor S env) :
    ∀ (loopFuel : Nat) (states : List (Nat × PhaseState)) (used : List ShardId)
      (acc : List MigrateInfo),
      statesGoodFor S states →
      S.countP (fun s => !used.contains s) + 1 ≤ loopFuel →
      (selectLoop env fuel loopFuel states used acc).2.2.2 = true := by
  intro loopFuel
  induction loopFuel with
  | zero =>
      intro states used acc hg hle
      exact absurd hle (Nat.not_succ_le_zero _)
  | succ n ih =>
      intro states used acc hg hle
      have hpass := selectPass_spec env S fuel henv states used hg
      cases hsp : selectPass env fuel states used with
      | mk ms pr =>
          obtain ⟨states2, used2⟩ := pr
          rw [hsp] at hpass
          dsimp only at hpass
          have hred : selectLoop env fuel (n + 1) states used acc =
              if ms.isEmpty then (acc, states2, used2, true)
              else selectLoop env fuel n states2 used2 (acc ++ ms) := by
            conv_lhs => rw [selectLoop, hsp]
          rw [hred]
          by_cases hempty : ms.isEmpty
          · rw [if_pos hempty]
          · rw [if_neg hempty]
            cases hms : ms with
            | nil =>
                exfalso
                rw [hms] at hempty
                exact hempty rfl
            | cons mi mrest =>
                have hlt : S.countP (fun s => !used2.contains s) <
                    S.countP (fun s => !used.contains s) :=
                  PopSeq.lt_measure (hms ▸ hpass.2)
                exact ih states2 used2 (acc ++ mi :: mrest) hpass.1 (by omega)

/-- C10: `selectChunksToMove` terminates — its `while (!done)` loop reaches
the exit condition within `|S| + 1` passes, because every migration inserts
its (previously free) source shard of the finite support `S` into
`usedShards` — and the returned migrations involve each shard at most once:
source shards are pairwise distinct and sources/destinations of distinct
migrations never collide, with every source shard free in the caller's
`usedShards`.  Stated under the phase invariants: `_smallChunksByShard` is
keyed consistently with the chunk records, shard names are drawn from `S`,
and the catalog (`env.buildPhase`) only produces such phases. -/
theorem c10_selectChunksToMove_terminates_and_one_migration_per_shard
    (env : PolicyEnv) (S : List ShardId) (fuel loopFuel : Nat)
    (st : EngineState) (usedShards : List ShardId)
    (henv : PolicyEnv.goodFor S env)
    (hst : statesGoodFor S st.defragmentationStates)
    (hfuel : S.countP (fun s => !usedShards.contains s) + 1 ≤ loopFuel) :
    (selectChunksToMove env fuel loopFuel st usedShards).2.2.2 = true ∧
    ((selectChunksToMove env fuel loopFuel st usedShards).1.map
        MigrateInfo.sourceShard).Nodup ∧
    (selectChunksToMove env fuel loopFuel st usedShards).1.Pairwise
      (fun a b => a.sourceShard ≠ b.sourceShard ∧ a.sourceShard ≠ b.destShard ∧
        a.destShard ≠ b.sourceShard ∧ a.destShard ≠ b.destShard) ∧
    ∀ mi ∈ (selectChunksToMove env fuel loopFuel st usedShards).1,
      (mi.sourceShard ∉ usedShards ∧ mi.destShard ∉ usedShards) ∧
      mi.sourceShard ∈ S ∧ mi.destShard ∈ S := by
  obtain ⟨ms2, hms2, hseq⟩ := selectLoop_spec env S fuel henv loopFuel
    st.defragmentationStates usedShards [] hst
  have hterm := selectLoop_terminated env S fuel henv loopFuel
    st.defragmentationStates usedShards [] hst hfuel
  have hms : (selectChunksToMove env fuel loopFuel st usedShards).1 = ms2 := by
    show (selectLoop env fuel loopFuel st.defragmentationStates
      usedShards []).1 = ms2
    rw [hms2]
    exact List.nil_append ms2
  refine ⟨hterm, ?_, ?_, ?_⟩
  · rw [hms]
    exact PopSeq.sources_nodup hseq
  · rw [hms]
    exact PopSeq.pairwise hseq
  · rw [hms]
    intro mi hmi
    exact ⟨PopSeq.fresh hseq mi hmi, PopSeq.mem_S hseq mi hmi⟩

/-- Engine environment for the C10 witness: no catalog rebuilds. -/
def c10env : PolicyEnv := ⟨fun _ => 0, fun _ _ => none⟩

/-- Engine with a single enrolled collection in the move-and-merge phase. -/
def c10engine : EngineState :=
  { defragmentationStates := [(17, .moveAndMergeP c1init)]
    concurrentStreamingOps := 0
    kMaxConcurrentOperations := 50
    hasPendingPromise := false
    streamClosed := false }

/-- The single enrolled phase satisfies the C10 invariants over `[0, 1]`. -/
theorem c10_statesGood : statesGoodFor [0, 1] c10engine.defragmentationStates := by
  intro e he
  have he2 : e = (17, PhaseState.moveAndMergeP c1init) := List.mem_singleton.mp he
  subst he2
  constructor
  · show ∀ p ∈ c1init.smallChunksByShard, ∀ c ∈ p.2,
      (c1init.chunkAt c).shard = p.1
    decide
  · intro cid
    show (c1init.chunkAt cid).shard ∈ [0, 1]
    unfold MoveAndMergeChunksPhaseState.chunkAt
    cases hl : alookup cid c1init.collectionChunks with
    | none => decide
    | some ci =>
        have hmem := alookup_some_mem cid _ hl
        rcases List.mem_cons.mp hmem with he | he
        · have hci : ci = ⟨⟨⟨0, 0⟩, ⟨10, 0⟩⟩, 0, 5, false⟩ :=
            congrArg Prod.snd he
          rw [hci]
          decide
        · rcases List.mem_cons.mp he with he2 | he2
          · have hci : ci = ⟨⟨⟨10, 0⟩, ⟨20, 0⟩⟩, 1, 5, false⟩ :=
              congrArg Prod.snd he2
            rw [hci]
            decide
          · exact absurd he2 (List.not_mem_nil _)

/-- C10 witness: on the concrete one-collection engine the loop reports
completion and the selected migrations have pairwise distinct sources. -/
theorem c10_witness :
    (selectChunksToMove c10env 1 3 c10engine []).2.2.2 = true ∧
    ((selectChunksToMove c10env 1 3 c10engine []).1.map
        MigrateInfo.sourceShard).Nodup := by
  have h := c10_selectChunksToMove_terminates_and_one_migration_per_shard
    c10env [0, 1] 1 3 c10engine [] (fun uuid ph p hp => Option.noConfusion hp)
    c10_statesGood (by decide)
  exact ⟨h.1, h.2.1⟩

end Defrag
